import Mathlib

/-!
# A verification development for `sequelize-qb` (`src/lib/QueryBuilder.js`)

Shallow embedding of the query-builder library: a fluent builder over a model,
read-path caching in a key-value store (redis), MD5 cache keys derived from
`JSON.stringify` of the builder's query state, and namespace-version
invalidation.

JavaScript values flowing through the library are modelled by `SQB.JVal`
(JSON-style data: null, booleans, integers, strings, arrays, objects with
insertion-ordered keys).  Numbers are restricted to integers: every number the
library itself manipulates (namespace versions, limits, offsets, TTLs) is an
integer.  The redis store holds strings, exactly as redis does; the JavaScript
client coerces numbers to their decimal string form on `set`.
-/

set_option maxRecDepth 1000000

namespace SQB

mutual

/-- JSON-style JavaScript values.  Object fields are kept in insertion order,
mirroring JavaScript objects and `JSON.stringify`. -/
inductive JVal where
  | jnull : JVal
  | jbool : Bool → JVal
  | jnum : Int → JVal
  | jstr : String → JVal
  | jarr : JArr → JVal
  | jobj : JObj → JVal

/-- A JavaScript array of `JVal`s. -/
inductive JArr where
  | anil : JArr
  | acons : JVal → JArr → JArr

/-- A JavaScript object: ordered association list of string keys and values. -/
inductive JObj where
  | onil : JObj
  | ocons : String → JVal → JObj → JObj

end

deriving instance DecidableEq for JVal
deriving instance DecidableEq for JArr
deriving instance DecidableEq for JObj

def arrOfList : List JVal → JArr
  | [] => .anil
  | v :: vs => .acons v (arrOfList vs)

def listOfArr : JArr → List JVal
  | .anil => []
  | .acons v vs => v :: listOfArr vs

def objOfList : List (String × JVal) → JObj
  | [] => .onil
  | (k, v) :: kvs => .ocons k v (objOfList kvs)

/-- Append one element at the end of a JavaScript array (`push`). -/
def apush : JArr → JVal → JArr
  | .anil, x => .acons x .anil
  | .acons v vs, x => .acons v (apush vs x)

/-- Property lookup on an object. -/
def olookup : JObj → String → Option JVal
  | .onil, _ => none
  | .ocons k v kvs, key => if k = key then some v else olookup kvs key

/-- Property assignment on an object: overwrite in place when the key exists
(keeping its position, as JavaScript does), otherwise append. -/
def oset : JObj → String → JVal → JObj
  | .onil, key, x => .ocons key x .onil
  | .ocons k v kvs, key, x =>
      if k = key then .ocons k x kvs else .ocons k v (oset kvs key x)

/-- Lookup in an insertion-ordered association list (a JavaScript object kept
as a Lean list of pairs). -/
def jlookup : List (String × JVal) → String → Option JVal
  | [], _ => none
  | (k, v) :: kvs, key => if k = key then some v else jlookup kvs key

/-- Assignment in an insertion-ordered association list: overwrite in place or
append, as JavaScript property assignment does. -/
def jset : List (String × JVal) → String → JVal → List (String × JVal)
  | [], key, x => [(key, x)]
  | (k, v) :: kvs, key, x =>
      if k = key then (k, x) :: kvs else (k, v) :: jset kvs key x

/-- `Object.assign(target, src)` / object spread `{...target, ...src}`:
source keys are assigned one by one, in order. -/
def objAssign (target : List (String × JVal)) : List (String × JVal) → List (String × JVal)
  | [] => target
  | (k, v) :: src => objAssign (jset target k v) src

/-- JavaScript truthiness of a `JVal`. -/
def jtruthy : JVal → Bool
  | .jnull => false
  | .jbool b => b
  | .jnum n => n != 0
  | .jstr s => s != ""
  | .jarr _ => true
  | .jobj _ => true

/-! ## Decimal printing of integers (`String(n)` / `JSON.stringify(n)`) -/

def hexTable : List Char := "0123456789abcdef".data

def hexDigit (n : Nat) : Char := hexTable.getD (n % 16) '0'

/-- Accumulator-style decimal printer; the fuel only bounds recursion and
`n + 1` is always enough. -/
def natDecGo : Nat → Nat → List Char → List Char
  | 0, _, acc => acc
  | fuel + 1, n, acc =>
      if n < 10 then hexDigit n :: acc
      else natDecGo fuel (n / 10) (hexDigit (n % 10) :: acc)

/-- Decimal digits of a natural number, most significant first. -/
def natDec (n : Nat) : List Char := natDecGo (n + 1) n []

/-- Decimal form of an integer, as JavaScript's number-to-string conversion
produces for integers. -/
def intDec (n : Int) : List Char :=
  if n < 0 then '-' :: natDec (-n).toNat else natDec n.toNat

/-! ## `JSON.stringify` -/

/-- `JSON.stringify` escaping of one character inside a string literal. -/
def escChar (c : Char) : List Char :=
  if c = '"' then ['\\', '"']
  else if c = '\\' then ['\\', '\\']
  else if c = '\x08' then ['\\', 'b']
  else if c = '\x09' then ['\\', 't']
  else if c = '\x0a' then ['\\', 'n']
  else if c = '\x0c' then ['\\', 'f']
  else if c = '\x0d' then ['\\', 'r']
  else if c.toNat < 32 then ['\\', 'u', '0', '0', hexDigit (c.toNat / 16), hexDigit c.toNat]
  else [c]

/-- A JSON string literal: quoted and escaped. -/
def escString (s : String) : List Char := '"' :: s.data.flatMap escChar ++ ['"']

mutual

/-- `JSON.stringify`, producing the character list of the serialization.
Object keys are emitted in insertion order, exactly as JavaScript does. -/
def stringifyChars : JVal → List Char
  | .jnull => ['n', 'u', 'l', 'l']
  | .jbool true => ['t', 'r', 'u', 'e']
  | .jbool false => ['f', 'a', 'l', 's', 'e']
  | .jnum n => intDec n
  | .jstr s => escString s
  | .jarr xs => '[' :: arrChars xs ++ [']']
  | .jobj kvs => '\x7b' :: objChars kvs ++ ['\x7d']

def arrChars : JArr → List Char
  | .anil => []
  | .acons x .anil => stringifyChars x
  | .acons x xs => stringifyChars x ++ ',' :: arrChars xs

def objChars : JObj → List Char
  | .onil => []
  | .ocons k v .onil => escString k ++ ':' :: stringifyChars v
  | .ocons k v kvs => (escString k ++ ':' :: stringifyChars v) ++ ',' :: objChars kvs

end

/-- `JSON.stringify` as a string-valued function. -/
def stringify (v : JVal) : String := String.mk (stringifyChars v)

/-! ## MD5 (`crypto.createHash("md5").update(s).digest("hex")`)

Modelled with `Nat` arithmetic mod 2^32.  Strings are hashed over their
bytes; all strings this library serializes are ASCII, where UTF-8 bytes
coincide with code points. -/

def w32 (n : Nat) : Nat := n % 4294967296

def rotl32 (x c : Nat) : Nat := w32 (x * 2 ^ c + x / 2 ^ (32 - c))

def not32 (x : Nat) : Nat := Nat.xor (w32 x) 4294967295

def md5K : List Nat :=
  [0xd76aa478, 0xe8c7b756, 0x242070db, 0xc1bdceee, 0xf57c0faf, 0x4787c62a, 0xa8304613, 0xfd469501,
   0x698098d8, 0x8b44f7af, 0xffff5bb1, 0x895cd7be, 0x6b901122, 0xfd987193, 0xa679438e, 0x49b40821,
   0xf61e2562, 0xc040b340, 0x265e5a51, 0xe9b6c7aa, 0xd62f105d, 0x02441453, 0xd8a1e681, 0xe7d3fbc8,
   0x21e1cde6, 0xc33707d6, 0xf4d50d87, 0x455a14ed, 0xa9e3e905, 0xfcefa3f8, 0x676f02d9, 0x8d2a4c8a,
   0xfffa3942, 0x8771f681, 0x6d9d6122, 0xfde5380c, 0xa4beea44, 0x4bdecfa9, 0xf6bb4b60, 0xbebfbc70,
   0x289b7ec6, 0xeaa127fa, 0xd4ef3085, 0x04881d05, 0xd9d4d039, 0xe6db99e5, 0x1fa27cf8, 0xc4ac5665,
   0xf4292244, 0x432aff97, 0xab9423a7, 0xfc93a039, 0x655b59c3, 0x8f0ccc92, 0xffeff47d, 0x85845dd1,
   0x6fa87e4f, 0xfe2ce6e0, 0xa3014314, 0x4e0811a1, 0xf7537e82, 0xbd3af235, 0x2ad7d2bb, 0xeb86d391]

def md5S : List Nat :=
  [7, 12, 17, 22, 7, 12, 17, 22, 7, 12, 17, 22, 7, 12, 17, 22,
   5, 9, 14, 20, 5, 9, 14, 20, 5, 9, 14, 20, 5, 9, 14, 20,
   4, 11, 16, 23, 4, 11, 16, 23, 4, 11, 16, 23, 4, 11, 16, 23,
   6, 10, 15, 21, 6, 10, 15, 21, 6, 10, 15, 21, 6, 10, 15, 21]

/-- Little-endian bytes of `n`, exactly `k` of them. -/
def leBytes (k n : Nat) : List Nat :=
  match k with
  | 0 => []
  | k + 1 => n % 256 :: leBytes k (n / 256)

/-- Group padded message bytes into little-endian 32-bit words. -/
def toWords : List Nat → List Nat
  | b0 :: b1 :: b2 :: b3 :: rest =>
      (b0 + 256 * b1 + 65536 * b2 + 16777216 * b3) :: toWords rest
  | _ => []

/-- MD5 padding: append 0x80, zero bytes to 56 mod 64, then the 8-byte
little-endian bit length. -/
def md5pad (msg : List Nat) : List Nat :=
  let padLen := (55 + 64 - msg.length % 64) % 64 + 1
  msg ++ 0x80 :: List.replicate (padLen - 1) 0 ++ leBytes 8 (msg.length * 8)

def md5round (m : List Nat) (st : Nat × Nat × Nat × Nat) (i : Nat) : Nat × Nat × Nat × Nat :=
  let (a, b, c, d) := st
  let (f, g) :=
    if i < 16 then (Nat.lor (Nat.land b c) (Nat.land (not32 b) d), i)
    else if i < 32 then (Nat.lor (Nat.land d b) (Nat.land (not32 d) c), (5 * i + 1) % 16)
    else if i < 48 then (Nat.xor (Nat.xor b c) d, (3 * i + 5) % 16)
    else (Nat.xor c (Nat.lor b (not32 d)), (7 * i) % 16)
  let f2 := w32 (f + a + md5K.getD i 0 + m.getD g 0)
  (d, w32 (b + rotl32 f2 (md5S.getD i 0)), b, c)

def md5chunk (st0 : Nat × Nat × Nat × Nat) (m : List Nat) : Nat × Nat × Nat × Nat :=
  let (a0, b0, c0, d0) := st0
  let (a, b, c, d) := (List.range 64).foldl (md5round m) st0
  (w32 (a0 + a), w32 (b0 + b), w32 (c0 + c), w32 (d0 + d))

def md5chunks (st : Nat × Nat × Nat × Nat) : List Nat → Nat × Nat × Nat × Nat
  | w0 :: w1 :: w2 :: w3 :: w4 :: w5 :: w6 :: w7 ::
    w8 :: w9 :: w10 :: w11 :: w12 :: w13 :: w14 :: w15 :: rest =>
      md5chunks
        (md5chunk st [w0, w1, w2, w3, w4, w5, w6, w7, w8, w9, w10, w11, w12, w13, w14, w15]) rest
  | _ => st

def byteHex (b : Nat) : List Char := [hexDigit (b / 16), hexDigit b]

def md5bytes (msg : List Nat) : List Nat :=
  let (a, b, c, d) :=
    md5chunks (0x67452301, 0xefcdab89, 0x98badcfe, 0x10325476) (toWords (md5pad msg))
  leBytes 4 a ++ leBytes 4 b ++ leBytes 4 c ++ leBytes 4 d

/-- Hex digest of the MD5 of a string. -/
def md5hex (s : String) : String :=
  String.mk ((md5bytes (s.data.map Char.toNat)).flatMap byteHex)

/-! ## `parseInt` (JavaScript, radix not supplied) -/

def jsWhitespace : List Char := [' ', '\t', '\n', '\r', '\x0b', '\x0c']

def isDigitChar (c : Char) : Bool := 48 ≤ c.toNat && c.toNat ≤ 57

def isHexDigitChar (c : Char) : Bool :=
  (48 ≤ c.toNat && c.toNat ≤ 57) || (97 ≤ c.toNat && c.toNat ≤ 102) ||
    (65 ≤ c.toNat && c.toNat ≤ 70)

def digitVal (c : Char) : Nat :=
  if 48 ≤ c.toNat && c.toNat ≤ 57 then c.toNat - 48
  else if 97 ≤ c.toNat && c.toNat ≤ 102 then c.toNat - 87
  else if 65 ≤ c.toNat && c.toNat ≤ 70 then c.toNat - 55
  else 0

/-- Accumulate the value of a digit string in the given base. -/
def digitsAcc (base : Nat) : Nat → List Char → Nat
  | a, [] => a
  | a, c :: cs => digitsAcc base (a * base + digitVal c) cs

/-- Strip an optional leading sign, returning the sign factor. -/
def stripSign : List Char → Int × List Char
  | [] => (1, [])
  | c :: t => if c = '-' then (-1, t) else if c = '+' then (1, t) else (1, c :: t)

/-- Detect a `0x` / `0X` prefix, returning the radix. -/
def strip0x : List Char → Nat × List Char
  | c1 :: c2 :: t =>
      if c1 = '0' && (c2 = 'x' || c2 = 'X') then (16, t) else (10, c1 :: c2 :: t)
  | cs => (10, cs)

/-- JavaScript `parseInt(s)` with no radix argument: skip leading whitespace,
optional sign, `0x`/`0X` switches to base 16, then as many digits as possible.
`none` models `NaN`. -/
def parseIntJS (s : String) : Option Int :=
  let cs := s.data.dropWhile (fun c => c ∈ jsWhitespace)
  let sign := (stripSign cs).1
  let cs1 := (stripSign cs).2
  let base := (strip0x cs1).1
  let cs2 := (strip0x cs1).2
  let ds := cs2.takeWhile (fun c => if base = 16 then isHexDigitChar c else isDigitChar c)
  if ds.isEmpty then none else some (sign * (digitsAcc base 0 ds : Nat))

/-- JavaScript number-to-string when the number may be `NaN` (`none`). -/
def numToString : Option Int → String
  | some n => String.mk (intDec n)
  | none => "NaN"

/-! ## `JSON.parse`

A recursive-descent JSON parser.  The fuel argument only bounds recursion
depth; `jparse` supplies ample fuel.  Numbers are parsed as integers: every
number this library ever serializes is an integer (see the header note). -/

def isJsonWS (c : Char) : Bool := c = ' ' || c = '\t' || c = '\n' || c = '\r'

def skipWS (cs : List Char) : List Char := cs.dropWhile isJsonWS

/-- Translate a single-character JSON escape. -/
def unescChar : Char → Option Char
  | '"' => some '"'
  | '\\' => some '\\'
  | '/' => some '/'
  | 'b' => some '\x08'
  | 'f' => some '\x0c'
  | 'n' => some '\x0a'
  | 'r' => some '\x0d'
  | 't' => some '\x09'
  | _ => none

def hexVal4 (h1 h2 h3 h4 : Char) : Nat :=
  digitVal h1 * 4096 + digitVal h2 * 256 + digitVal h3 * 16 + digitVal h4

/-- Parse the body of a JSON string literal (the opening quote already
consumed), returning the string and the unconsumed suffix.  `\u` escapes
denote scalar code points here; every escape this library serializes is a
control character below U+0020. -/
def parseJString : List Char → Option (String × List Char)
  | [] => none
  | c :: rest =>
      if c = '"' then some ("", rest)
      else if c = '\\' then
        match rest with
        | [] => none
        | e :: rest2 =>
            if e = 'u' then
              match rest2 with
              | h1 :: h2 :: h3 :: h4 :: rest3 =>
                  if isHexDigitChar h1 && isHexDigitChar h2 &&
                      isHexDigitChar h3 && isHexDigitChar h4 then
                    (parseJString rest3).map fun p =>
                      (String.mk (Char.ofNat (hexVal4 h1 h2 h3 h4) :: p.1.data), p.2)
                  else none
              | _ => none
            else
              match unescChar e with
              | some c2 => (parseJString rest2).map fun p => (String.mk (c2 :: p.1.data), p.2)
              | none => none
      else if c.toNat < 32 then none
      else (parseJString rest).map fun p => (String.mk (c :: p.1.data), p.2)

mutual

/-- Parse one JSON value; whitespace before it is skipped. -/
def parseVal : Nat → List Char → Option (JVal × List Char)
  | 0, _ => none
  | fuel + 1, cs =>
      match skipWS cs with
      | [] => none
      | c :: rest =>
          if c = 'n' then
            match rest with
            | 'u' :: 'l' :: 'l' :: r => some (.jnull, r)
            | _ => none
          else if c = 't' then
            match rest with
            | 'r' :: 'u' :: 'e' :: r => some (.jbool true, r)
            | _ => none
          else if c = 'f' then
            match rest with
            | 'a' :: 'l' :: 's' :: 'e' :: r => some (.jbool false, r)
            | _ => none
          else if c = '"' then (parseJString rest).map fun p => (.jstr p.1, p.2)
          else if c = '[' then
            match skipWS rest with
            | ']' :: r => some (.jarr .anil, r)
            | _ => (parseElems fuel rest).map fun p => (.jarr p.1, p.2)
          else if c = '\x7b' then
            match skipWS rest with
            | '\x7d' :: r => some (.jobj .onil, r)
            | _ => (parseMembers fuel rest).map fun p => (.jobj p.1, p.2)
          else if c = '-' then
            let ds := rest.takeWhile isDigitChar
            if ds.isEmpty then none
            else some (.jnum (-(digitsAcc 10 0 ds : Int)), rest.dropWhile isDigitChar)
          else if isDigitChar c then
            some (.jnum (digitsAcc 10 0 ((c :: rest).takeWhile isDigitChar) : Nat),
                  (c :: rest).dropWhile isDigitChar)
          else none

/-- Parse the elements of a non-empty JSON array (after the opening `[`). -/
def parseElems : Nat → List Char → Option (JArr × List Char)
  | 0, _ => none
  | fuel + 1, cs =>
      (parseVal fuel cs).bind fun p =>
        match skipWS p.2 with
        | ',' :: r => (parseElems fuel r).map fun q => (.acons p.1 q.1, q.2)
        | ']' :: r => some (.acons p.1 .anil, r)
        | _ => none

/-- Parse the members of a non-empty JSON object (after the opening brace). -/
def parseMembers : Nat → List Char → Option (JObj × List Char)
  | 0, _ => none
  | fuel + 1, cs =>
      match skipWS cs with
      | '"' :: rest =>
          (parseJString rest).bind fun kp =>
            match skipWS kp.2 with
            | ':' :: r =>
                (parseVal fuel r).bind fun vp =>
                  match skipWS vp.2 with
                  | ',' :: r2 => (parseMembers fuel r2).map fun q => (.ocons kp.1 vp.1 q.1, q.2)
                  | '\x7d' :: r2 => some (.ocons kp.1 vp.1 .onil, r2)
                  | _ => none
            | _ => none
      | _ => none

end

/-- `JSON.parse`; `none` models a thrown `SyntaxError`. -/
def jparse (s : String) : Option JVal :=
  match parseVal (2 * s.data.length + 4) s.data with
  | some (v, rest) => if (skipWS rest).isEmpty then some v else none
  | none => none

/-! ## The redis store

State of the key-value store, plus failure injection: `failGets` (`failSets`)
are the keys whose `get` (`set`/`setEx`) calls reject, modelling an
unreachable store.  Redis values are strings; the client coerces numbers on
write.  `setEx` expiry is beyond the model: no claim observes the passage of
time. -/

structure Redis where
  data : List (String × String)
  failGets : List String
  failSets : List String
deriving DecidableEq

/-- Errors surfaced by the embedded operations: a rejected store `get`, a
rejected store `set`/`setEx`, or a `JSON.parse` `SyntaxError`. -/
inductive JsErr where
  | storeGet (key : String)
  | storeSet (key : String)
  | parseFail
deriving DecidableEq

def rlookup : List (String × String) → String → Option String
  | [], _ => none
  | (k, v) :: kvs, key => if k = key then some v else rlookup kvs key

def rstore : List (String × String) → String → String → List (String × String)
  | [], key, x => [(key, x)]
  | (k, v) :: kvs, key, x =>
      if k = key then (k, x) :: kvs else (k, v) :: rstore kvs key x

def rget (r : Redis) (k : String) : Except JsErr (Option String) :=
  if k ∈ r.failGets then .error (.storeGet k) else .ok (rlookup r.data k)

def rset (r : Redis) (k v : String) : Except JsErr Redis :=
  if k ∈ r.failSets then .error (.storeSet k)
  else .ok { r with data := rstore r.data k v }

/-- `setEx(key, ttl, value)`: the write itself; expiry is not modelled. -/
def rsetEx (r : Redis) (k : String) (_ttl : JVal) (v : String) : Except JsErr Redis :=
  rset r k v

/-! ## The QueryBuilder -/

/-- The builder's `this.query` object, in field declaration order
(`where`, `include`, `attributes`, `order`, `limit`, `offset`). -/
structure Query where
  qwhere : List (String × JVal)
  qinclude : List JVal
  qattributes : JVal
  qorder : List JVal
  qlimit : JVal
  qoffset : JVal
deriving DecidableEq

/-- A `QueryBuilder` instance: the model (its name and its virtual-attribute
registry, the result of `model.virtualAttributes(sequelize)`), the accumulated
query, the cache TTL (`null` until `cache()` is called) and the local logging
flag. -/
structure Builder where
  modelName : String
  virtuals : List (String × JVal)
  query : Query
  cacheTTL : JVal
  logging : Bool
deriving DecidableEq

/-- `new QueryBuilder(model)`: the default query object. -/
def newBuilder (modelName : String) (virtuals : List (String × JVal)) : Builder :=
  { modelName := modelName
    virtuals := virtuals
    query := { qwhere := [], qinclude := [], qattributes := .jnull,
               qorder := [], qlimit := .jnull, qoffset := .jnull }
    cacheTTL := .jnull
    logging := false }

/-- `filter(filters)`: `Object.assign(this.query.where, filters)`. -/
def filter (b : Builder) (filters : List (String × JVal)) : Builder :=
  { b with query.qwhere := objAssign b.query.qwhere filters }

/-- `include(associations)`: appends to `this.query.include`. -/
def includeAssoc (b : Builder) (associations : List JVal) : Builder :=
  { b with query.qinclude := b.query.qinclude ++ associations }

/-- `sort(order)`: replaces `this.query.order`. -/
def sort (b : Builder) (order : List JVal) : Builder :=
  { b with query.qorder := order }

/-- `paginate({ page, pageSize })`: sets `limit = pageSize` and
`offset = (page - 1) * pageSize`, with no validation whatsoever. -/
def paginate (b : Builder) (page pageSize : Int) : Builder :=
  { b with
      query.qlimit := .jnum pageSize
      query.qoffset := .jnum ((page - 1) * pageSize) }

/-- `cache(ttlSeconds)`: records the TTL. -/
def cacheFor (b : Builder) (ttlSeconds : Int) : Builder :=
  { b with cacheTTL := .jnum ttlSeconds }

/-- `log(enabled)`. -/
def logOn (b : Builder) (enabled : Bool) : Builder :=
  { b with logging := enabled }

/-- One iteration of `select`'s virtual-attribute loop:
`this.query.attributes.include.push([modelVirtuals[v], v])`. -/
def pushVirtual (modelVirtuals : List (String × JVal)) (acc : JVal) (v : String) : JVal :=
  match acc with
  | .jobj kvs =>
      match olookup kvs "include" with
      | some (.jarr xs) =>
          .jobj (oset kvs "include"
            (.jarr (apush xs (.jarr (.acons ((jlookup modelVirtuals v).getD .jnull)
              (.acons (.jstr v) .anil))))))
      | _ => acc
  | _ => acc

/-- `select(attributes)`: partitions the requested names against the model's
virtual-attribute registry, rebuilds `this.query.attributes` from the real
names, and pushes `[expression, name]` pairs for the virtual ones. -/
def select (b : Builder) (attributes : List String) : Builder :=
  let modelVirtuals := b.virtuals
  let realAttrs := attributes.filter fun a => !(jlookup modelVirtuals a).any jtruthy
  let virtualAttrs := attributes.filter fun a => (jlookup modelVirtuals a).any jtruthy
  let attrs0 : JVal :=
    if realAttrs.isEmpty then .jnull else .jarr (arrOfList (realAttrs.map .jstr))
  if virtualAttrs.isEmpty then { b with query.qattributes := attrs0 }
  else
    let base : JVal :=
      match attrs0 with
      | .jnull => .jobj (.ocons "include" (.jarr .anil) .onil)
      | .jarr _ => .jobj (.ocons "include" (.jarr (arrOfList (realAttrs.map .jstr))) .onil)
      | .jobj kvs =>
          if (olookup kvs "include").any jtruthy then .jobj kvs
          else .jobj (oset kvs "include" (.jarr .anil))
      | other => other
    let final := virtualAttrs.foldl (pushVirtual modelVirtuals) base
    { b with query.qattributes := final }

/-- The ordinary columns listed in a projection: the members of a plain
attribute array, or of the `include` array of an attribute object. -/
def projectedCols (attrs : JVal) : List JVal :=
  match attrs with
  | .jarr xs => listOfArr xs
  | .jobj kvs =>
      match olookup kvs "include" with
      | some (.jarr xs) => listOfArr xs
      | _ => []
  | _ => []

/-- `this.query` as the JavaScript object `JSON.stringify` sees, fields in
declaration order. -/
def queryPairs (q : Query) : List (String × JVal) :=
  [("where", .jobj (objOfList q.qwhere)),
   ("include", .jarr (arrOfList q.qinclude)),
   ("attributes", q.qattributes),
   ("order", .jarr (arrOfList q.qorder)),
   ("limit", q.qlimit),
   ("offset", q.qoffset)]

/-- `_getNamespaceVersion(modelName)`: read `ns:<modelName>`; when the reply
is falsy (absent or the empty string), write `1` and return the number `1`;
otherwise return the reply string itself. -/
def getNamespaceVersion (modelName : String) (r : Redis) : Except JsErr (JVal × Redis) :=
  let key := "ns:" ++ modelName
  match rget r key with
  | .error e => .error e
  | .ok (some s) =>
      if s = "" then (rset r key "1").map fun r2 => (.jnum 1, r2)
      else .ok (.jstr s, r)
  | .ok none => (rset r key "1").map fun r2 => (.jnum 1, r2)

/-- The `keyData` object of `_getCacheKey`. -/
def keyData (b : Builder) (method : String) (version : JVal) : JVal :=
  .jobj (.ocons "model" (.jstr b.modelName)
    (.ocons "version" version
      (.ocons "method" (.jstr method)
        (.ocons "query" (.jobj (objOfList (queryPairs b.query))) .onil))))

/-- `_getCacheKey(method)`: MD5 of `JSON.stringify(keyData)`. -/
def getCacheKey (b : Builder) (r : Redis) (method : String) : Except JsErr (String × Redis) :=
  (getNamespaceVersion b.modelName r).map fun p =>
    (md5hex (stringify (keyData b method p.1)), p.2)

/-- `_checkCache(key)`: `get` the key; a truthy reply is `JSON.parse`d, a
falsy reply yields `null`. -/
def checkCache (r : Redis) (key : String) : Except JsErr (JVal × Redis) :=
  match rget r key with
  | .error e => .error e
  | .ok (some s) =>
      if s = "" then .ok (.jnull, r)
      else
        match jparse s with
        | some v => .ok (v, r)
        | none => .error .parseFail
  | .ok none => .ok (.jnull, r)

/-- `_setCache(key, value)`: `setEx` with the TTL when the TTL is truthy. -/
def setCache (b : Builder) (r : Redis) (key : String) (value : JVal) : Except JsErr Redis :=
  if jtruthy b.cacheTTL then rsetEx r key b.cacheTTL (stringify value)
  else .ok r

/-- A scalar cell of a result row. -/
inductive Prim where
  | pnull : Prim
  | pbool : Bool → Prim
  | pnum : Int → Prim
  | pstr : String → Prim
deriving DecidableEq

def primJ : Prim → JVal
  | .pnull => .jnull
  | .pbool b => .jbool b
  | .pnum n => .jnum n
  | .pstr s => .jstr s

/-- A result row: an object of scalar fields. -/
def Row := List (String × Prim)

def rowJO : Row → JObj
  | [] => .onil
  | (k, p) :: kps => .ocons k (primJ p) (rowJO kps)

def rowsJA : List Row → JArr
  | [] => .anil
  | row :: rows => .acons (.jobj (rowJO row)) (rowsJA rows)

/-- The value `model.findAll` resolves with: an array of rows. -/
def rowsToJVal (rows : List Row) : JVal := .jarr (rowsJA rows)

/-- The value `model.findOne` resolves with: a row or `null`. -/
def rowOptToJVal : Option Row → JVal
  | some row => .jobj (rowJO row)
  | none => .jnull

/-- The external query engine for `findAll`: a function of the merged
`{...this.query, ...options}` object. -/
def Engine := List (String × JVal) → List Row

/-- The external query engine for `findOne`. -/
def EngineOne := List (String × JVal) → Option Row

/-- `findAll(options)`.  Returns the value resolved to the caller, the store
state, and the number of query-engine invocations (threaded through from
`calls`). -/
def findAll (b : Builder) (eng : Engine) (options : List (String × JVal)) (r : Redis)
    (calls : Nat) : Except JsErr (JVal × Redis × Nat) :=
  let keyStep : Except JsErr (Option String × Redis) :=
    if jtruthy b.cacheTTL then (getCacheKey b r "findAll").map fun p => (some p.1, p.2)
    else .ok (none, r)
  match keyStep with
  | .error e => .error e
  | .ok (key?, r1) =>
      let cacheStep : Except JsErr (Option JVal × Redis) :=
        match key? with
        | some k =>
            match checkCache r1 k with
            | .error e => .error e
            | .ok (cached, r2) => .ok (if jtruthy cached then some cached else none, r2)
        | none => .ok (none, r1)
      match cacheStep with
      | .error e => .error e
      | .ok (some hit, r2) => .ok (hit, r2, calls)
      | .ok (none, r2) =>
          let result := rowsToJVal (eng (objAssign (queryPairs b.query) options))
          match key? with
          | some k => (setCache b r2 k result).map fun r3 => (result, r3, calls + 1)
          | none => .ok (result, r2, calls + 1)

/-- `findOne(options)`; identical to `findAll` except for the method string
and the engine entry point. -/
def findOne (b : Builder) (eng : EngineOne) (options : List (String × JVal)) (r : Redis)
    (calls : Nat) : Except JsErr (JVal × Redis × Nat) :=
  let keyStep : Except JsErr (Option String × Redis) :=
    if jtruthy b.cacheTTL then (getCacheKey b r "findOne").map fun p => (some p.1, p.2)
    else .ok (none, r)
  match keyStep with
  | .error e => .error e
  | .ok (key?, r1) =>
      let cacheStep : Except JsErr (Option JVal × Redis) :=
        match key? with
        | some k =>
            match checkCache r1 k with
            | .error e => .error e
            | .ok (cached, r2) => .ok (if jtruthy cached then some cached else none, r2)
        | none => .ok (none, r1)
      match cacheStep with
      | .error e => .error e
      | .ok (some hit, r2) => .ok (hit, r2, calls)
      | .ok (none, r2) =>
          let result := rowOptToJVal (eng (objAssign (queryPairs b.query) options))
          match key? with
          | some k => (setCache b r2 k result).map fun r3 => (result, r3, calls + 1)
          | none => .ok (result, r2, calls + 1)

/-- One namespace bump inside `invalidate`: read the current value; when
truthy, write `parseInt(current) + 1`, otherwise write `1`. -/
def bumpNamespace (r : Redis) (name : String) : Except JsErr Redis :=
  let key := "ns:" ++ name
  match rget r key with
  | .error e => .error e
  | .ok current =>
      let next : String :=
        match current with
        | some s => if s = "" then "1" else numToString ((parseIntJS s).map (· + 1))
        | none => "1"
      rset r key next

def bumpRelated (r : Redis) : List String → Except JsErr Redis
  | [] => .ok r
  | m :: ms =>
      match bumpNamespace r m with
      | .error e => .error e
      | .ok r1 => bumpRelated r1 ms

/-- `QueryBuilder.invalidate(modelName, relatedModels)`: bump the model's
namespace version, then each related model's, in order. -/
def invalidate (r : Redis) (modelName : String) (relatedModels : List String) :
    Except JsErr Redis :=
  match bumpNamespace r modelName with
  | .error e => .error e
  | .ok r1 => bumpRelated r1 relatedModels

/-- The numeric value of a resource's stored namespace version: `0` when the
key is absent or its value does not parse (`NaN`). -/
def versionNum (r : Redis) (name : String) : Int :=
  match rlookup r.data ("ns:" ++ name) with
  | none => 0
  | some s => (parseIntJS s).getD 0

/-- A version-store operation: a `_getNamespaceVersion` read or an
`invalidate` call. -/
inductive Op where
  | getv (name : String)
  | inval (name : String) (relateds : List String)

def applyOp (r : Redis) : Op → Except JsErr Redis
  | .getv name => (getNamespaceVersion name r).map fun p => p.2
  | .inval name relateds => invalidate r name relateds

def applyOps (r : Redis) : List Op → Except JsErr Redis
  | [] => .ok r
  | op :: ops =>
      match applyOp r op with
      | .error e => .error e
      | .ok r1 => applyOps r1 ops

/-! ## Lemmas: digit strings and the decimal printer -/

theorem digitsAcc_append (base a : Nat) (xs ys : List Char) :
    digitsAcc base a (xs ++ ys) = digitsAcc base (digitsAcc base a xs) ys := by
  induction xs generalizing a with
  | nil => rfl
  | cons c cs ih => simp [digitsAcc, ih]

theorem isDigitChar_hexDigit : ∀ n, n < 10 → isDigitChar (hexDigit n) = true := by decide

theorem digitVal_hexDigit : ∀ n, n < 16 → digitVal (hexDigit n) = n := by decide

theorem natDecGo_spec : ∀ (fuel n : Nat) (acc : List Char), n < 10 ^ (fuel + 1) →
    ∃ ds, natDecGo (fuel + 1) n acc = ds ++ acc ∧ ds ≠ [] ∧
      (∀ c ∈ ds, isDigitChar c = true) ∧
      ∀ a, digitsAcc 10 a ds = a * 10 ^ ds.length + n := by
  intro fuel
  induction fuel with
  | zero =>
      intro n acc hn
      have h10 : n < 10 := by simpa using hn
      refine ⟨[hexDigit n], by simp [natDecGo, h10], by simp, ?_, ?_⟩
      · intro c hc
        rw [List.mem_singleton] at hc
        exact hc ▸ isDigitChar_hexDigit n h10
      · intro a
        simp [digitsAcc, digitVal_hexDigit n (by omega)]
  | succ f ih =>
      intro n acc hn
      by_cases h10 : n < 10
      · refine ⟨[hexDigit n], by simp [natDecGo, h10], by simp, ?_, ?_⟩
        · intro c hc
          rw [List.mem_singleton] at hc
          exact hc ▸ isDigitChar_hexDigit n h10
        · intro a
          simp [digitsAcc, digitVal_hexDigit n (by omega)]
      · have hdiv : n / 10 < 10 ^ (f + 1) := by
          rw [Nat.div_lt_iff_lt_mul (by norm_num)]
          calc n < 10 ^ (f + 1 + 1) := hn
            _ = 10 ^ (f + 1) * 10 := by rw [pow_succ]
        obtain ⟨ds, heq, hne, hdig, hval⟩ := ih (n / 10) (hexDigit (n % 10) :: acc) hdiv
        refine ⟨ds ++ [hexDigit (n % 10)], ?_, by simp, ?_, ?_⟩
        · rw [show natDecGo (f + 1 + 1) n acc = natDecGo (f + 1) (n / 10) (hexDigit (n % 10) :: acc)
              from by simp [natDecGo, h10], heq]
          simp
        · intro c hc
          rcases List.mem_append.mp hc with h | h
          · exact hdig c h
          · rw [List.mem_singleton] at h
            exact h ▸ isDigitChar_hexDigit (n % 10) (Nat.mod_lt n (by norm_num))
        · intro a
          rw [digitsAcc_append, hval]
          have hd : digitVal (hexDigit (n % 10)) = n % 10 :=
            digitVal_hexDigit (n % 10) (Nat.lt_of_lt_of_le (Nat.mod_lt n (by norm_num)) (by norm_num))
          have hdm : 10 * (n / 10) + n % 10 = n := Nat.div_add_mod n 10
          simp only [digitsAcc, hd, List.length_append, List.length_singleton]
          calc (a * 10 ^ ds.length + n / 10) * 10 + n % 10
              = a * (10 ^ ds.length * 10) + (10 * (n / 10) + n % 10) := by ring
            _ = a * 10 ^ (ds.length + 1) + n := by rw [hdm, pow_succ]

theorem natDec_props (n : Nat) :
    natDec n ≠ [] ∧ (∀ c ∈ natDec n, isDigitChar c = true) ∧
      digitsAcc 10 0 (natDec n) = n := by
  have hlt : n < 10 ^ (n + 1) :=
    lt_of_lt_of_le (Nat.lt_two_pow n)
      (le_trans (Nat.pow_le_pow_left (by norm_num) n)
        (Nat.pow_le_pow_right (by norm_num) (Nat.le_succ n)))
  obtain ⟨ds, heq, hne, hdig, hval⟩ := natDecGo_spec n n [] hlt
  have h2 : natDec n = ds := by
    rw [natDec, heq, List.append_nil]
  rw [h2]
  exact ⟨hne, hdig, by simpa using hval 0⟩

/-! ## Lemmas: `parseIntJS` recovers printed integers -/

theorem takeWhile_all {p : Char → Bool} {l : List Char} (h : ∀ x ∈ l, p x = true) :
    l.takeWhile p = l := by
  induction l with
  | nil => rfl
  | cons c cs ih =>
      rw [List.takeWhile_cons, h c (List.mem_cons_self c cs)]
      exact congrArg _ (ih fun x hx => h x (List.mem_cons_of_mem c hx))

theorem digit_ne_chars {c : Char} (h : isDigitChar c = true) :
    c ≠ '-' ∧ c ≠ '+' ∧ c ≠ 'x' ∧ c ≠ 'X' ∧ decide (c ∈ jsWhitespace) = false := by
  refine ⟨?_, ?_, ?_, ?_, ?_⟩
  · intro hc; subst hc; exact absurd h (by decide)
  · intro hc; subst hc; exact absurd h (by decide)
  · intro hc; subst hc; exact absurd h (by decide)
  · intro hc; subst hc; exact absurd h (by decide)
  · refine decide_eq_false ?_
    intro hc
    simp only [jsWhitespace, List.mem_cons, List.not_mem_nil, or_false] at hc
    rcases hc with rfl | rfl | rfl | rfl | rfl | rfl <;> exact absurd h (by decide)

theorem strip0x_natDec (m : Nat) : strip0x (natDec m) = (10, natDec m) := by
  obtain ⟨hne, hdig, _⟩ := natDec_props m
  cases hd : natDec m with
  | nil => exact absurd hd hne
  | cons d ds =>
      cases ds with
      | nil => rfl
      | cons e es =>
          have hde : isDigitChar e = true := by
            refine hdig e ?_
            rw [hd]
            exact List.mem_cons_of_mem d (List.mem_cons_self e es)
          obtain ⟨_, _, hx, hX, _⟩ := digit_ne_chars hde
          simp [strip0x, hx, hX]

theorem parseIntJS_mk_natDec (sign : Int) (pre : List Char) (m : Nat)
    (hpre : stripSign (pre ++ natDec m) = (sign, natDec m))
    (hws : (pre ++ natDec m).dropWhile (fun c => decide (c ∈ jsWhitespace)) = pre ++ natDec m) :
    parseIntJS (String.mk (pre ++ natDec m)) = some (sign * m) := by
  obtain ⟨hne, hdig, hval⟩ := natDec_props m
  rw [parseIntJS]
  simp only [hws, hpre, strip0x_natDec]
  have htake : (natDec m).takeWhile
      (fun c => if (10 : Nat) = 16 then isHexDigitChar c else isDigitChar c) = natDec m := by
    refine takeWhile_all fun x hx => ?_
    simp [hdig x hx]
  rw [htake]
  simp [List.isEmpty_iff, hne, hval]

theorem parseIntJS_intDec (n : Int) : parseIntJS (String.mk (intDec n)) = some n := by
  by_cases hn : n < 0
  · have h1 : intDec n = '-' :: natDec (-n).toNat := by simp [intDec, hn]
    have h2 : parseIntJS (String.mk (['-'] ++ natDec (-n).toNat)) =
        some (-1 * ((-n).toNat : Int)) := by
      refine parseIntJS_mk_natDec (-1) ['-'] (-n).toNat ?_ ?_
      · simp [stripSign]
      · simp
        decide
    rw [h1]
    rw [show ('-' :: natDec (-n).toNat) = ['-'] ++ natDec (-n).toNat from rfl, h2]
    congr 1
    omega
  · have h1 : intDec n = natDec n.toNat := by simp [intDec, hn]
    obtain ⟨hne, hdig, _⟩ := natDec_props n.toNat
    cases hd : natDec n.toNat with
    | nil => exact absurd hd hne
    | cons d ds =>
        have hdd : isDigitChar d = true := by
          refine hdig d ?_
          rw [hd]
          exact List.mem_cons_self d ds
        obtain ⟨hminus, hplus, _, _, hwsd⟩ := digit_ne_chars hdd
        have h2 : parseIntJS (String.mk ([] ++ natDec n.toNat)) =
            some (1 * (n.toNat : Int)) := by
          refine parseIntJS_mk_natDec 1 [] n.toNat ?_ ?_
          · rw [List.nil_append, hd]
            simp [stripSign, hminus, hplus]
          · rw [List.nil_append, hd]
            simp [List.dropWhile_cons, hwsd]
        rw [h1]
        rw [show natDec n.toNat = [] ++ natDec n.toNat from rfl, h2]
        congr 1
        omega

/-! ## Lemmas: JSON string escaping round-trips through the parser -/

theorem isHexDigitChar_hexDigit (n : Nat) : isHexDigitChar (hexDigit n) = true := by
  have h : n % 16 < 16 := Nat.mod_lt n (by norm_num)
  unfold hexDigit
  revert h
  generalize n % 16 = k
  revert k
  decide

theorem digitVal_hexDigit_mod (n : Nat) : digitVal (hexDigit n) = n % 16 := by
  have h : n % 16 < 16 := Nat.mod_lt n (by norm_num)
  unfold hexDigit
  revert h
  generalize n % 16 = k
  revert k
  decide

theorem parseJString_esc (l : List Char) (rest : List Char) :
    parseJString (l.flatMap escChar ++ '"' :: rest) = some (String.mk l, rest) := by
  induction l with
  | nil =>
      rw [List.flatMap_nil, List.nil_append, parseJString.eq_def]
      simp
  | cons c cs ih =>
      rw [List.flatMap_cons, List.append_assoc]
      by_cases h1 : c = '"'
      · subst h1
        rw [show escChar '"' = ['\\', '"'] from rfl,
          show (['\\', '"'] : List Char) ++ (cs.flatMap escChar ++ '"' :: rest) =
            '\\' :: '"' :: (cs.flatMap escChar ++ '"' :: rest) from rfl,
          parseJString.eq_def]
        simp [unescChar, ih]
      · by_cases h2 : c = '\\'
        · subst h2
          rw [show escChar '\\' = ['\\', '\\'] from rfl,
            show (['\\', '\\'] : List Char) ++ (cs.flatMap escChar ++ '"' :: rest) =
              '\\' :: '\\' :: (cs.flatMap escChar ++ '"' :: rest) from rfl,
            parseJString.eq_def]
          simp [unescChar, ih]
        · by_cases h3 : c = '\x08'
          · subst h3
            rw [show escChar '\x08' = ['\\', 'b'] from rfl,
              show (['\\', 'b'] : List Char) ++ (cs.flatMap escChar ++ '"' :: rest) =
                '\\' :: 'b' :: (cs.flatMap escChar ++ '"' :: rest) from rfl,
              parseJString.eq_def]
            simp [unescChar, ih]
          · by_cases h4 : c = '\x09'
            · subst h4
              rw [show escChar '\x09' = ['\\', 't'] from rfl,
                show (['\\', 't'] : List Char) ++ (cs.flatMap escChar ++ '"' :: rest) =
                  '\\' :: 't' :: (cs.flatMap escChar ++ '"' :: rest) from rfl,
                parseJString.eq_def]
              simp [unescChar, ih]
            · by_cases h5 : c = '\x0a'
              · subst h5
                rw [show escChar '\x0a' = ['\\', 'n'] from rfl,
                  show (['\\', 'n'] : List Char) ++ (cs.flatMap escChar ++ '"' :: rest) =
                    '\\' :: 'n' :: (cs.flatMap escChar ++ '"' :: rest) from rfl,
                  parseJString.eq_def]
                simp [unescChar, ih]
              · by_cases h6 : c = '\x0c'
                · subst h6
                  rw [show escChar '\x0c' = ['\\', 'f'] from rfl,
                    show (['\\', 'f'] : List Char) ++ (cs.flatMap escChar ++ '"' :: rest) =
                      '\\' :: 'f' :: (cs.flatMap escChar ++ '"' :: rest) from rfl,
                    parseJString.eq_def]
                  simp [unescChar, ih]
                · by_cases h7 : c = '\x0d'
                  · subst h7
                    rw [show escChar '\x0d' = ['\\', 'r'] from rfl,
                      show (['\\', 'r'] : List Char) ++ (cs.flatMap escChar ++ '"' :: rest) =
                        '\\' :: 'r' :: (cs.flatMap escChar ++ '"' :: rest) from rfl,
                      parseJString.eq_def]
                    simp [unescChar, ih]
                  · by_cases h8 : c.toNat < 32
                    · have hesc : escChar c =
                          ['\\', 'u', '0', '0', hexDigit (c.toNat / 16), hexDigit c.toNat] := by
                        simp [escChar, h1, h2, h3, h4, h5, h6, h7, h8]
                      rw [hesc,
                        show (['\\', 'u', '0', '0', hexDigit (c.toNat / 16), hexDigit c.toNat] :
                            List Char) ++ (cs.flatMap escChar ++ '"' :: rest) =
                          '\\' :: 'u' :: '0' :: '0' :: hexDigit (c.toNat / 16) ::
                            hexDigit c.toNat :: (cs.flatMap escChar ++ '"' :: rest) from rfl,
                        parseJString.eq_def]
                      have hv : hexVal4 '0' '0' (hexDigit (c.toNat / 16)) (hexDigit c.toNat)
                          = c.toNat := by
                        simp only [hexVal4, digitVal_hexDigit_mod]
                        have hd0 : digitVal '0' = 0 := by decide
                        rw [hd0]
                        omega
                      simp [isHexDigitChar_hexDigit, ih, hv, Char.ofNat_toNat,
                        show isHexDigitChar '0' = true from by decide]
                    · have hesc : escChar c = [c] := by
                        simp [escChar, h1, h2, h3, h4, h5, h6, h7, h8]
                      rw [hesc, List.singleton_append, parseJString.eq_def]
                      simp [h1, h2, h8, ih]

/-! ## Lemmas: the parser recovers serialized result rows -/

/-- The character that may legally follow a serialized value inside a JSON
document: a separator, a closing bracket, or nothing. -/
def goodTail : List Char → Bool
  | [] => true
  | c :: _ => c = ',' || c = ']' || c = '\x7d'

theorem digit_head_facts {c : Char} (h : isDigitChar c = true) :
    isJsonWS c = false ∧ c ≠ 'n' ∧ c ≠ 't' ∧ c ≠ 'f' ∧ c ≠ '"' ∧ c ≠ '[' ∧
      c ≠ '\x7b' ∧ c ≠ '-' := by
  refine ⟨?_, ?_, ?_, ?_, ?_, ?_, ?_, ?_⟩
  · cases hb : isJsonWS c with
    | false => rfl
    | true =>
        exfalso
        simp only [isJsonWS, Bool.or_eq_true, decide_eq_true_eq] at hb
        rcases hb with ((rfl | rfl) | rfl) | rfl <;> exact absurd h (by decide)
  all_goals intro hc; subst hc; exact absurd h (by decide)

theorem goodTail_head {rest : List Char} (h : goodTail rest = true) :
    ∀ y t, rest = y :: t → isDigitChar y = false := by
  intro y t hyt
  subst hyt
  simp only [goodTail, Bool.or_eq_true, decide_eq_true_eq] at h
  rcases h with (rfl | rfl) | rfl <;> decide

theorem takeWhile_append_stop (p : Char → Bool) (xs ys : List Char)
    (h1 : ∀ x ∈ xs, p x = true) (h2 : ∀ y t, ys = y :: t → p y = false) :
    (xs ++ ys).takeWhile p = xs ∧ (xs ++ ys).dropWhile p = ys := by
  induction xs with
  | nil =>
      cases ys with
      | nil => exact ⟨rfl, rfl⟩
      | cons y t => simp [List.takeWhile_cons, List.dropWhile_cons, h2 y t rfl]
  | cons x xs ih =>
      have hx := h1 x (List.mem_cons_self x xs)
      have ihr := ih fun a ha => h1 a (List.mem_cons_of_mem x ha)
      simp [List.takeWhile_cons, List.dropWhile_cons, hx, ihr.1, ihr.2]

theorem skipWS_cons {c : Char} (t : List Char) (h : isJsonWS c = false) :
    skipWS (c :: t) = c :: t := by
  simp [skipWS, List.dropWhile_cons, h]

theorem parseVal_succ (f : Nat) (cs : List Char) :
    parseVal (f + 1) cs =
      match skipWS cs with
      | [] => none
      | c :: rest =>
          if c = 'n' then
            match rest with
            | 'u' :: 'l' :: 'l' :: r => some (.jnull, r)
            | _ => none
          else if c = 't' then
            match rest with
            | 'r' :: 'u' :: 'e' :: r => some (.jbool true, r)
            | _ => none
          else if c = 'f' then
            match rest with
            | 'a' :: 'l' :: 's' :: 'e' :: r => some (.jbool false, r)
            | _ => none
          else if c = '"' then (parseJString rest).map fun p => (.jstr p.1, p.2)
          else if c = '[' then
            match skipWS rest with
            | ']' :: r => some (.jarr .anil, r)
            | _ => (parseElems f rest).map fun p => (.jarr p.1, p.2)
          else if c = '\x7b' then
            match skipWS rest with
            | '\x7d' :: r => some (.jobj .onil, r)
            | _ => (parseMembers f rest).map fun p => (.jobj p.1, p.2)
          else if c = '-' then
            let ds := rest.takeWhile isDigitChar
            if ds.isEmpty then none
            else some (.jnum (-(digitsAcc 10 0 ds : Int)), rest.dropWhile isDigitChar)
          else if isDigitChar c then
            some (.jnum (digitsAcc 10 0 ((c :: rest).takeWhile isDigitChar) : Nat),
                  (c :: rest).dropWhile isDigitChar)
          else none := rfl

theorem parseElems_succ (f : Nat) (cs : List Char) :
    parseElems (f + 1) cs =
      (parseVal f cs).bind fun p =>
        match skipWS p.2 with
        | ',' :: r => (parseElems f r).map fun q => (.acons p.1 q.1, q.2)
        | ']' :: r => some (.acons p.1 .anil, r)
        | _ => none := rfl

theorem parseMembers_succ (f : Nat) (cs : List Char) :
    parseMembers (f + 1) cs =
      match skipWS cs with
      | '"' :: rest =>
          (parseJString rest).bind fun kp =>
            match skipWS kp.2 with
            | ':' :: r =>
                (parseVal f r).bind fun vp =>
                  match skipWS vp.2 with
                  | ',' :: r2 => (parseMembers f r2).map fun q => (.ocons kp.1 vp.1 q.1, q.2)
                  | '\x7d' :: r2 => some (.ocons kp.1 vp.1 .onil, r2)
                  | _ => none
            | _ => none
      | _ => none := rfl

theorem parseVal_natDec (f m : Nat) (rest : List Char) (h : goodTail rest = true) :
    parseVal (f + 1) (natDec m ++ rest) = some (.jnum (m : Int), rest) := by
  obtain ⟨hne, hdig, hval⟩ := natDec_props m
  have hstop := takeWhile_append_stop isDigitChar (natDec m) rest hdig (goodTail_head h)
  cases hd : natDec m with
  | nil => exact absurd hd hne
  | cons d ds =>
      have hdd : isDigitChar d = true := hdig d (hd ▸ List.mem_cons_self d ds)
      obtain ⟨hws, hn, ht, hf, hq, hb, hob, hm⟩ := digit_head_facts hdd
      rw [hd] at hstop hval
      have htk : List.takeWhile isDigitChar (ds ++ rest) = ds := by
        have h1 := hstop.1
        simp [List.takeWhile_cons, hdd] at h1
        exact h1
      have hdp : List.dropWhile isDigitChar (ds ++ rest) = rest := by
        have h2 := hstop.2
        simp [List.dropWhile_cons, hdd] at h2
        exact h2
      rw [List.cons_append, parseVal_succ]
      simp [hn, ht, hf, hq, hb, hob, hm, hdd, skipWS, List.dropWhile_cons, hws,
        htk, hdp, hval]

theorem parseVal_prim (f : Nat) (p : Prim) (rest : List Char) (h : goodTail rest = true) :
    parseVal (f + 1) (stringifyChars (primJ p) ++ rest) = some (primJ p, rest) := by
  cases p with
  | pnull =>
      rw [show stringifyChars (primJ .pnull) ++ rest =
          'n' :: 'u' :: 'l' :: 'l' :: rest from rfl, parseVal_succ]
      simp [skipWS, List.dropWhile_cons, isJsonWS, primJ]
  | pbool b =>
      cases b with
      | true =>
          rw [show stringifyChars (primJ (.pbool true)) ++ rest =
              't' :: 'r' :: 'u' :: 'e' :: rest from rfl, parseVal_succ]
          simp [skipWS, List.dropWhile_cons, isJsonWS, primJ]
      | false =>
          rw [show stringifyChars (primJ (.pbool false)) ++ rest =
              'f' :: 'a' :: 'l' :: 's' :: 'e' :: rest from rfl, parseVal_succ]
          simp [skipWS, List.dropWhile_cons, isJsonWS, primJ]
  | pstr s =>
      rw [show stringifyChars (primJ (.pstr s)) ++ rest =
          '"' :: (s.data.flatMap escChar ++ '"' :: rest) from by
            simp [stringifyChars, primJ, escString], parseVal_succ]
      simp [skipWS, List.dropWhile_cons, isJsonWS, parseJString_esc, primJ]
  | pnum n =>
      by_cases hn : n < 0
      · obtain ⟨hne, hdig, hval⟩ := natDec_props (-n).toNat
        have hstop := takeWhile_append_stop isDigitChar (natDec (-n).toNat) rest hdig
          (goodTail_head h)
        have hcast : (((-n).toNat : Nat) : Int) = -n := Int.toNat_of_nonneg (by omega)
        rw [show stringifyChars (primJ (.pnum n)) ++ rest =
            '-' :: (natDec (-n).toNat ++ rest) from by
              simp [stringifyChars, primJ, intDec, hn], parseVal_succ]
        simp only [skipWS, List.dropWhile_cons, show isJsonWS '-' = false from by decide,
          Bool.false_eq_true, if_false]
        simp only [show ('-' : Char) ≠ 'n' from by decide,
          show ('-' : Char) ≠ 't' from by decide, show ('-' : Char) ≠ 'f' from by decide,
          show ('-' : Char) ≠ '"' from by decide, show ('-' : Char) ≠ '[' from by decide,
          show ('-' : Char) ≠ '\x7b' from by decide, if_false, if_neg, reduceIte]
        rw [hstop.1, hstop.2]
        have hemp : (natDec (-n).toNat).isEmpty = false := by
          cases hz : natDec (-n).toNat with
          | nil => exact absurd hz hne
          | cons a l => rfl
        rw [hemp]
        simp only [Bool.false_eq_true, if_false, hval, reduceIte]
        rw [show (-(((-n).toNat : Nat) : Int)) = n from by rw [hcast]; omega]
        rfl
      · rw [show stringifyChars (primJ (.pnum n)) ++ rest = natDec n.toNat ++ rest from by
            simp [stringifyChars, primJ, intDec, hn]]
        rw [parseVal_natDec f n.toNat rest h]
        rw [show ((n.toNat : Nat) : Int) = n from Int.toNat_of_nonneg (by omega)]
        rfl

theorem parseMembers_row (row : Row) : ∀ (fuel : Nat) (rest : List Char), row ≠ [] →
    row.length + 1 ≤ fuel →
    parseMembers fuel (objChars (rowJO row) ++ '\x7d' :: rest) = some (rowJO row, rest) := by
  induction row with
  | nil => intro _ _ hne _; exact absurd rfl hne
  | cons kp rps ih =>
      obtain ⟨k, p⟩ := kp
      intro fuel rest _ hfuel
      obtain ⟨f, rfl⟩ : ∃ f, fuel = f + 1 := ⟨fuel - 1, by simp at hfuel; omega⟩
      obtain ⟨f2, rfl⟩ : ∃ f2, f = f2 + 1 := ⟨f - 1, by simp at hfuel; omega⟩
      cases rps with
      | nil =>
          rw [show objChars (rowJO [(k, p)]) ++ '\x7d' :: rest =
              '"' :: (k.data.flatMap escChar ++
                '"' :: (':' :: (stringifyChars (primJ p) ++ '\x7d' :: rest))) from by
                simp [rowJO, objChars, escString], parseMembers_succ]
          rw [skipWS_cons _ (by decide : isJsonWS '"' = false)]
          simp only [parseJString_esc, Option.some_bind]
          rw [skipWS_cons _ (by decide : isJsonWS ':' = false)]
          simp only []
          rw [parseVal_prim f2 p ('\x7d' :: rest) (by simp [goodTail]),
            Option.some_bind]
          rw [skipWS_cons _ (by decide : isJsonWS '\x7d' = false)]
          simp [rowJO]
      | cons q qs =>
          rw [show objChars (rowJO ((k, p) :: q :: qs)) ++ '\x7d' :: rest =
              '"' :: (k.data.flatMap escChar ++
                '"' :: (':' :: (stringifyChars (primJ p) ++
                  ',' :: (objChars (rowJO (q :: qs)) ++ '\x7d' :: rest)))) from by
                simp [rowJO, objChars, escString], parseMembers_succ]
          rw [skipWS_cons _ (by decide : isJsonWS '"' = false)]
          simp only [parseJString_esc, Option.some_bind]
          rw [skipWS_cons _ (by decide : isJsonWS ':' = false)]
          simp only []
          rw [parseVal_prim f2 p
              (',' :: (objChars (rowJO (q :: qs)) ++ '\x7d' :: rest)) (by simp [goodTail]),
            Option.some_bind]
          rw [skipWS_cons _ (by decide : isJsonWS ',' = false)]
          simp only []
          rw [ih (f2 + 1) rest (by simp) (by simp at hfuel ⊢; omega)]
          simp [rowJO]

theorem parseVal_row (row : Row) (fuel : Nat) (rest : List Char)
    (h : row.length + 2 ≤ fuel) :
    parseVal fuel (stringifyChars (.jobj (rowJO row)) ++ rest) =
      some (.jobj (rowJO row), rest) := by
  obtain ⟨f, rfl⟩ : ∃ f, fuel = f + 1 := ⟨fuel - 1, by omega⟩
  cases row with
  | nil =>
      rw [show stringifyChars (.jobj (rowJO [])) ++ rest = '\x7b' :: '\x7d' :: rest from rfl,
        parseVal_succ]
      simp [skipWS, List.dropWhile_cons, isJsonWS, rowJO]
  | cons kp rps =>
      obtain ⟨k, p⟩ := kp
      have hmem : parseMembers f (objChars (rowJO ((k, p) :: rps)) ++ '\x7d' :: rest) =
          some (rowJO ((k, p) :: rps), rest) :=
        parseMembers_row ((k, p) :: rps) f rest (by simp) (by simp at h ⊢; omega)
      have hobj : ∃ t, objChars (rowJO ((k, p) :: rps)) = '"' :: t := by
        cases rps <;> simp [rowJO, objChars, escString]
      obtain ⟨t, hobj⟩ := hobj
      rw [show stringifyChars (.jobj (rowJO ((k, p) :: rps))) ++ rest =
          '\x7b' :: (objChars (rowJO ((k, p) :: rps)) ++ '\x7d' :: rest) from by
            simp [stringifyChars], parseVal_succ]
      rw [skipWS_cons _ (by decide : isJsonWS '\x7b' = false)]
      rw [hobj] at hmem ⊢
      rw [List.cons_append] at hmem
      simp [skipWS, List.dropWhile_cons, isJsonWS, hmem]

def rowsBound : List Row → Nat
  | [] => 0
  | row :: rs => row.length + 3 + rowsBound rs

theorem parseElems_rows (rows : List Row) : ∀ (fuel : Nat) (rest : List Char), rows ≠ [] →
    rowsBound rows ≤ fuel →
    parseElems fuel (arrChars (rowsJA rows) ++ ']' :: rest) = some (rowsJA rows, rest) := by
  induction rows with
  | nil => intro _ _ hne _; exact absurd rfl hne
  | cons row rs ih =>
      intro fuel rest _ hfuel
      obtain ⟨f, rfl⟩ : ∃ f, fuel = f + 1 :=
        ⟨fuel - 1, by simp [rowsBound] at hfuel; omega⟩
      rw [parseElems_succ]
      cases rs with
      | nil =>
          rw [show arrChars (rowsJA [row]) = stringifyChars (.jobj (rowJO row)) from by
              simp [rowsJA, arrChars]]
          rw [parseVal_row row f (']' :: rest) (by simp [rowsBound] at hfuel; omega),
            Option.some_bind]
          rw [skipWS_cons _ (by decide : isJsonWS ']' = false)]
          simp [rowsJA]
      | cons r2 rs2 =>
          rw [show arrChars (rowsJA (row :: r2 :: rs2)) ++ ']' :: rest =
              stringifyChars (.jobj (rowJO row)) ++
                (',' :: (arrChars (rowsJA (r2 :: rs2)) ++ ']' :: rest)) from by
                simp [rowsJA, arrChars]]
          rw [parseVal_row row f (',' :: (arrChars (rowsJA (r2 :: rs2)) ++ ']' :: rest))
              (by simp [rowsBound] at hfuel; omega),
            Option.some_bind]
          rw [skipWS_cons _ (by decide : isJsonWS ',' = false)]
          simp only []
          rw [ih f rest (by simp) (by simp [rowsBound] at hfuel ⊢; omega)]
          simp [rowsJA]

theorem objChars_len (row : Row) : row.length ≤ (objChars (rowJO row)).length := by
  induction row with
  | nil => simp [rowJO, objChars]
  | cons kp rps ih =>
      obtain ⟨k, p⟩ := kp
      cases rps with
      | nil => simp [rowJO, objChars, escString]
      | cons q qs =>
          simp only [rowJO, objChars, List.length_cons, List.length_append]
          simp only [rowJO] at ih
          simp at ih ⊢
          omega

theorem rowsBound_le (rows : List Row) :
    rowsBound rows ≤ 2 * (arrChars (rowsJA rows)).length + 3 := by
  induction rows with
  | nil => simp [rowsBound]
  | cons row rs ih =>
      cases rs with
      | nil =>
          have h1 := objChars_len row
          simp only [rowsBound, rowsJA, arrChars, stringifyChars]
          simp
          omega
      | cons r2 rs2 =>
          have h1 := objChars_len row
          simp only [rowsBound, rowsJA, arrChars, stringifyChars] at ih ⊢
          simp at ih ⊢
          omega

theorem jparse_stringify_rows (rows : List Row) :
    jparse (stringify (rowsToJVal rows)) = some (rowsToJVal rows) := by
  cases rows with
  | nil => rfl
  | cons row rs =>
      rw [jparse]
      have hdata : (stringify (rowsToJVal (row :: rs))).data =
          '[' :: (arrChars (rowsJA (row :: rs)) ++ ']' :: []) := by
        simp [stringify, rowsToJVal, stringifyChars]
      rw [hdata]
      rw [show 2 * (('[' :: (arrChars (rowsJA (row :: rs)) ++ ']' :: [])).length) + 4 =
          (2 * (arrChars (rowsJA (row :: rs))).length + 7) + 1 from by simp; ring]
      rw [parseVal_succ]
      rw [skipWS_cons _ (by decide : isJsonWS '[' = false)]
      have hhead : ∃ t, arrChars (rowsJA (row :: rs)) ++ ']' :: [] = '\x7b' :: t := by
        cases rs <;> cases row <;>
          simp [rowsJA, arrChars, stringifyChars, rowJO, objChars, escString]
      obtain ⟨t, hht⟩ := hhead
      have helems := parseElems_rows (row :: rs)
        (2 * (arrChars (rowsJA (row :: rs))).length + 7) [] (by simp)
        (le_trans (rowsBound_le (row :: rs)) (by omega))
      rw [hht] at helems ⊢
      simp [skipWS, List.dropWhile_cons, isJsonWS, helems, rowsToJVal]

theorem jtruthy_rows (rows : List Row) : jtruthy (rowsToJVal rows) = true := rfl

theorem stringify_rows_ne (rows : List Row) : stringify (rowsToJVal rows) ≠ "" := by
  intro hcon
  have : (stringify (rowsToJVal rows)).data = [] := by rw [hcon]
  rw [show (stringify (rowsToJVal rows)).data =
      '[' :: (arrChars (rowsJA rows) ++ [']']) from by
        simp [stringify, rowsToJVal, stringifyChars]] at this
  exact List.cons_ne_nil _ _ this

/-! ## Lemmas: the store -/

theorem rlookup_rstore_self (d : List (String × String)) (k v : String) :
    rlookup (rstore d k v) k = some v := by
  induction d with
  | nil => simp [rstore, rlookup]
  | cons kv d ih =>
      obtain ⟨k1, v1⟩ := kv
      by_cases h : k1 = k
      · subst h
        simp [rstore, rlookup]
      · simp [rstore, rlookup, h, ih]

theorem rlookup_rstore_other (d : List (String × String)) (k k' v : String) (h : k' ≠ k) :
    rlookup (rstore d k v) k' = rlookup d k' := by
  induction d with
  | nil => simp [rstore, rlookup, Ne.symm h]
  | cons kv d ih =>
      obtain ⟨k1, v1⟩ := kv
      by_cases h1 : k1 = k
      · subst h1
        simp [rstore, rlookup, Ne.symm h]
      · simp [rstore, rlookup, h1, ih]

theorem hexDigit_mem (n : Nat) : hexDigit n ∈ hexTable := by
  have h : n % 16 < 16 := Nat.mod_lt n (by norm_num)
  unfold hexDigit
  revert h
  generalize n % 16 = k
  revert k
  decide

theorem md5hex_chars {c : Char} {s : String} (h : c ∈ (md5hex s).data) : c ∈ hexTable := by
  rw [show (md5hex s).data = (md5bytes (s.data.map Char.toNat)).flatMap byteHex from rfl]
    at h
  rw [List.mem_flatMap] at h
  obtain ⟨b, _, hb⟩ := h
  rw [show byteHex b = [hexDigit (b / 16), hexDigit b] from rfl] at hb
  simp only [List.mem_cons, List.not_mem_nil, or_false] at hb
  rcases hb with rfl | rfl <;> exact hexDigit_mem _

theorem md5hex_ne_ns (s name : String) : md5hex s ≠ "ns:" ++ name := by
  intro heq
  have hmem : ':' ∈ (md5hex s).data := by
    rw [heq, String.data_append]
    rw [show ("ns:" : String).data = ['n', 's', ':'] from rfl]
    simp
  exact absurd (md5hex_chars hmem) (by decide)

/-! ## Lemmas: namespace version reads and the cache protocol -/

theorem getNamespaceVersion_present {r : Redis} {name s : String}
    (hg : ("ns:" ++ name) ∉ r.failGets) (hs : rlookup r.data ("ns:" ++ name) = some s)
    (hne : s ≠ "") : getNamespaceVersion name r = .ok (.jstr s, r) := by
  simp [getNamespaceVersion, rget, hg, hs, hne]

theorem getNamespaceVersion_absent {r : Redis} {name : String}
    (hg : ("ns:" ++ name) ∉ r.failGets) (hset : ("ns:" ++ name) ∉ r.failSets)
    (hs : rlookup r.data ("ns:" ++ name) = none) :
    getNamespaceVersion name r =
      .ok (.jnum 1, { r with data := rstore r.data ("ns:" ++ name) "1" }) := by
  simp [getNamespaceVersion, rget, hg, hs, rset, hset, Except.map]

theorem getCacheKey_present {b : Builder} {r : Redis} {s : String} (method : String)
    (hg : ("ns:" ++ b.modelName) ∉ r.failGets)
    (hs : rlookup r.data ("ns:" ++ b.modelName) = some s) (hne : s ≠ "") :
    getCacheKey b r method =
      .ok (md5hex (stringify (keyData b method (.jstr s))), r) := by
  simp [getCacheKey, getNamespaceVersion_present hg hs hne, Except.map]

theorem checkCache_absent {r : Redis} {k : String} (hg : k ∉ r.failGets)
    (hs : rlookup r.data k = none) : checkCache r k = .ok (.jnull, r) := by
  simp [checkCache, rget, hg, hs]

theorem checkCache_found {r : Redis} {k cs : String} {v : JVal} (hg : k ∉ r.failGets)
    (hs : rlookup r.data k = some cs) (hne : cs ≠ "") (hp : jparse cs = some v) :
    checkCache r k = .ok (v, r) := by
  simp [checkCache, rget, hg, hs, hne, hp]

theorem checkCache_empty {r : Redis} {k : String} (hg : k ∉ r.failGets)
    (hs : rlookup r.data k = some "") : checkCache r k = .ok (.jnull, r) := by
  simp [checkCache, rget, hg, hs]

/-! ## Lemmas: `findAll` execution paths -/

theorem findAll_nocache (b : Builder) (eng : Engine) (opts : List (String × JVal))
    (r : Redis) (calls : Nat) (h : jtruthy b.cacheTTL = false) :
    findAll b eng opts r calls =
      .ok (rowsToJVal (eng (objAssign (queryPairs b.query) opts)), r, calls + 1) := by
  simp [findAll, h]

theorem findOne_nocache (b : Builder) (eng : EngineOne) (opts : List (String × JVal))
    (r : Redis) (calls : Nat) (h : jtruthy b.cacheTTL = false) :
    findOne b eng opts r calls =
      .ok (rowOptToJVal (eng (objAssign (queryPairs b.query) opts)), r, calls + 1) := by
  simp [findOne, h]

theorem findAll_hit {b : Builder} {eng : Engine} {opts : List (String × JVal)} {r : Redis}
    {calls : Nat} {s cs : String} {v : JVal}
    (httl : jtruthy b.cacheTTL = true)
    (hg : ("ns:" ++ b.modelName) ∉ r.failGets)
    (hns : rlookup r.data ("ns:" ++ b.modelName) = some s) (hsne : s ≠ "")
    (hkg : md5hex (stringify (keyData b "findAll" (.jstr s))) ∉ r.failGets)
    (hcs : rlookup r.data (md5hex (stringify (keyData b "findAll" (.jstr s)))) = some cs)
    (hcne : cs ≠ "") (hp : jparse cs = some v) (hv : jtruthy v = true) :
    findAll b eng opts r calls = .ok (v, r, calls) := by
  simp [findAll, httl, getCacheKey_present "findAll" hg hns hsne,
    checkCache_found hkg hcs hcne hp, hv, Except.map]

theorem findAll_miss {b : Builder} {eng : Engine} {opts : List (String × JVal)} {r : Redis}
    {calls : Nat} {s : String} {w : JVal}
    (httl : jtruthy b.cacheTTL = true)
    (hg : ("ns:" ++ b.modelName) ∉ r.failGets)
    (hns : rlookup r.data ("ns:" ++ b.modelName) = some s) (hsne : s ≠ "")
    (hcc : checkCache r (md5hex (stringify (keyData b "findAll" (.jstr s)))) = .ok (w, r))
    (hw : jtruthy w = false)
    (hks : md5hex (stringify (keyData b "findAll" (.jstr s))) ∉ r.failSets) :
    findAll b eng opts r calls =
      .ok (rowsToJVal (eng (objAssign (queryPairs b.query) opts)),
        { r with data := (rstore r.data (md5hex (stringify (keyData b "findAll" (.jstr s))))
            (stringify (rowsToJVal (eng (objAssign (queryPairs b.query) opts))))) },
        calls + 1) := by
  simp [findAll, httl, getCacheKey_present "findAll" hg hns hsne, hcc, hw,
    setCache, rsetEx, rset, hks, Except.map]

theorem findAll_get_fails {b : Builder} {eng : Engine} {opts : List (String × JVal)}
    {r : Redis} {calls : Nat} {s : String}
    (httl : jtruthy b.cacheTTL = true)
    (hg : ("ns:" ++ b.modelName) ∉ r.failGets)
    (hns : rlookup r.data ("ns:" ++ b.modelName) = some s) (hsne : s ≠ "")
    (hkg : md5hex (stringify (keyData b "findAll" (.jstr s))) ∈ r.failGets) :
    findAll b eng opts r calls =
      .error (.storeGet (md5hex (stringify (keyData b "findAll" (.jstr s))))) := by
  simp [findAll, httl, getCacheKey_present "findAll" hg hns hsne, checkCache, rget, hkg,
    Except.map]

theorem findAll_set_fails {b : Builder} {eng : Engine} {opts : List (String × JVal)}
    {r : Redis} {calls : Nat} {s : String} {w : JVal}
    (httl : jtruthy b.cacheTTL = true)
    (hg : ("ns:" ++ b.modelName) ∉ r.failGets)
    (hns : rlookup r.data ("ns:" ++ b.modelName) = some s) (hsne : s ≠ "")
    (hcc : checkCache r (md5hex (stringify (keyData b "findAll" (.jstr s)))) = .ok (w, r))
    (hw : jtruthy w = false)
    (hks : md5hex (stringify (keyData b "findAll" (.jstr s))) ∈ r.failSets) :
    findAll b eng opts r calls =
      .error (.storeSet (md5hex (stringify (keyData b "findAll" (.jstr s))))) := by
  simp [findAll, httl, getCacheKey_present "findAll" hg hns hsne, hcc, hw,
    setCache, rsetEx, rset, hks, Except.map]

/-! ## Lemmas: namespace versions under bumps and reads -/

theorem ns_key_inj {a b : String} (h : "ns:" ++ a = "ns:" ++ b) : a = b := by
  have h1 := congrArg String.data h
  rw [String.data_append, String.data_append] at h1
  exact String.ext_iff.mpr (List.append_cancel_left h1)

/-- The stored value at a namespace key is absent or parses to an integer
(`parseInt` does not yield `NaN`).  Every state this library itself produces
satisfies this. -/
def nsParses (r : Redis) (name : String) : Bool :=
  match rlookup r.data ("ns:" ++ name) with
  | none => true
  | some s => s == "" || (parseIntJS s).isSome

theorem bumpNamespace_ok_elim {r : Redis} {m : String} {r' : Redis}
    (h : bumpNamespace r m = .ok r') :
    r' = { r with data := (rstore r.data ("ns:" ++ m)
      (match rlookup r.data ("ns:" ++ m) with
       | some s => if s = "" then "1" else numToString ((parseIntJS s).map (· + 1))
       | none => "1")) } := by
  by_cases hg : ("ns:" ++ m) ∈ r.failGets
  · simp [bumpNamespace, rget, hg] at h
  · by_cases hs : ("ns:" ++ m) ∈ r.failSets
    · simp [bumpNamespace, rget, hg, rset, hs] at h
    · simp [bumpNamespace, rget, hg, rset, hs] at h
      exact h.symm

theorem parseIntJS_one : parseIntJS "1" = some 1 := by decide

theorem parseIntJS_nan : parseIntJS "NaN" = none := by decide

theorem versionNum_bump_self {r r' : Redis} {m : String}
    (h : bumpNamespace r m = .ok r') :
    versionNum r m ≤ versionNum r' m := by
  have he := bumpNamespace_ok_elim h
  subst he
  rw [versionNum, versionNum]
  simp only [rlookup_rstore_self]
  cases hc : rlookup r.data ("ns:" ++ m) with
  | none => simp [hc, parseIntJS_one]
  | some s =>
      simp only [hc]
      by_cases hse : s = ""
      · simp [hse, parseIntJS_one]
        rw [show parseIntJS "" = none from by decide]
        simp
      · simp only [hse, if_neg, reduceIte]
        cases hp : parseIntJS s with
        | none => simp [numToString, hp, parseIntJS_nan]
        | some k =>
            show (some k).getD 0 ≤ (parseIntJS (String.mk (intDec (k + 1)))).getD 0
            rw [parseIntJS_intDec (k + 1)]
            simp

theorem versionNum_bump_exact {r r' : Redis} {m : String}
    (h : bumpNamespace r m = .ok r') (hwf : nsParses r m = true) :
    versionNum r' m = versionNum r m + 1 := by
  have he := bumpNamespace_ok_elim h
  subst he
  rw [versionNum, versionNum]
  simp only [rlookup_rstore_self]
  rw [nsParses] at hwf
  cases hc : rlookup r.data ("ns:" ++ m) with
  | none => simp [hc, parseIntJS_one]
  | some s =>
      rw [hc] at hwf
      simp only [hc]
      by_cases hse : s = ""
      · subst hse
        simp [parseIntJS_one]
        rw [show parseIntJS "" = none from by decide]
        simp
      · simp only [hse, if_neg, reduceIte]
        simp only [Bool.or_eq_true, beq_iff_eq, hse, false_or, Option.isSome_iff_exists]
          at hwf
        obtain ⟨k, hk⟩ := hwf
        rw [hk]
        show (parseIntJS (String.mk (intDec (k + 1)))).getD 0 = (some k).getD 0 + 1
        rw [parseIntJS_intDec (k + 1)]
        simp

theorem versionNum_bump_other {r r' : Redis} {m : String} (name : String)
    (h : bumpNamespace r m = .ok r') (hne : name ≠ m) :
    rlookup r'.data ("ns:" ++ name) = rlookup r.data ("ns:" ++ name) := by
  have he := bumpNamespace_ok_elim h
  subst he
  exact rlookup_rstore_other _ _ _ _ (fun hc => hne (ns_key_inj hc))

theorem versionNum_bump_le {r r' : Redis} {m : String} (name : String)
    (h : bumpNamespace r m = .ok r') :
    versionNum r name ≤ versionNum r' name := by
  by_cases hne : name = m
  · subst hne
    exact versionNum_bump_self h
  · rw [versionNum, versionNum, versionNum_bump_other name h hne]

theorem bumpRelated_preserve {rels : List String} : ∀ {r r' : Redis} {name : String},
    bumpRelated r rels = .ok r' → name ∉ rels →
    rlookup r'.data ("ns:" ++ name) = rlookup r.data ("ns:" ++ name) := by
  induction rels with
  | nil =>
      intro r r' name h _
      simp [bumpRelated] at h
      rw [h]
  | cons m ms ih =>
      intro r r' name h hmem
      rw [bumpRelated] at h
      cases hb : bumpNamespace r m with
      | error e => rw [hb] at h; cases h
      | ok r1 =>
          rw [hb] at h
          have h1 : name ∉ ms := fun hc => hmem (List.mem_cons_of_mem m hc)
          have h2 : name ≠ m := fun hc => hmem (hc ▸ List.mem_cons_self m ms)
          rw [ih h h1, versionNum_bump_other name hb h2]

theorem bumpRelated_le {rels : List String} : ∀ {r r' : Redis} (name : String),
    bumpRelated r rels = .ok r' → versionNum r name ≤ versionNum r' name := by
  induction rels with
  | nil =>
      intro r r' name h
      simp [bumpRelated] at h
      rw [h]
  | cons m ms ih =>
      intro r r' name h
      rw [bumpRelated] at h
      cases hb : bumpNamespace r m with
      | error e => rw [hb] at h; cases h
      | ok r1 =>
          rw [hb] at h
          exact le_trans (versionNum_bump_le name hb) (ih name h)

theorem invalidate_exact {r r' : Redis} {name : String} {rels : List String}
    (hmem : name ∉ rels) (hwf : nsParses r name = true)
    (h : invalidate r name rels = .ok r') :
    versionNum r' name = versionNum r name + 1 := by
  rw [invalidate] at h
  cases hb : bumpNamespace r name with
  | error e => rw [hb] at h; cases h
  | ok r1 =>
      rw [hb] at h
      rw [versionNum, bumpRelated_preserve h hmem, ← versionNum]
      exact versionNum_bump_exact hb hwf

theorem getNamespaceVersion_le {r r' : Redis} {n : String} {v : JVal} (name : String)
    (h : getNamespaceVersion n r = .ok (v, r')) :
    versionNum r name ≤ versionNum r' name := by
  by_cases hg : ("ns:" ++ n) ∈ r.failGets
  · simp [getNamespaceVersion, rget, hg] at h
  · cases hc : rlookup r.data ("ns:" ++ n) with
    | none =>
        by_cases hs : ("ns:" ++ n) ∈ r.failSets
        · simp [getNamespaceVersion, rget, hg, hc, rset, hs, Except.map] at h
        · simp [getNamespaceVersion, rget, hg, hc, rset, hs, Except.map] at h
          rw [← h.2]
          by_cases hnm : name = n
          · subst hnm
            rw [versionNum, versionNum, hc, rlookup_rstore_self]
            simp [parseIntJS_one]
          · rw [versionNum, versionNum,
              rlookup_rstore_other _ _ _ _ (fun hx => hnm (ns_key_inj hx))]
    | some s =>
        by_cases hse : s = ""
        · subst hse
          by_cases hs : ("ns:" ++ n) ∈ r.failSets
          · simp [getNamespaceVersion, rget, hg, hc, rset, hs, Except.map] at h
          · simp [getNamespaceVersion, rget, hg, hc, rset, hs, Except.map] at h
            rw [← h.2]
            by_cases hnm : name = n
            · subst hnm
              rw [versionNum, versionNum, hc, rlookup_rstore_self]
              simp [parseIntJS_one, show parseIntJS "" = none from by decide]
            · rw [versionNum, versionNum,
                rlookup_rstore_other _ _ _ _ (fun hx => hnm (ns_key_inj hx))]
        · simp [getNamespaceVersion, rget, hg, hc, hse, Except.map] at h
          rw [← h.2]

theorem applyOp_le {r r' : Redis} {op : Op} (name : String)
    (h : applyOp r op = .ok r') : versionNum r name ≤ versionNum r' name := by
  cases op with
  | getv n =>
      rw [applyOp] at h
      cases hg : getNamespaceVersion n r with
      | error e => rw [hg] at h; cases h
      | ok p =>
          rw [hg] at h
          simp [Except.map] at h
          obtain ⟨v2, r2⟩ := p
          exact h ▸ getNamespaceVersion_le name hg
  | inval n rels =>
      rw [applyOp, invalidate] at h
      cases hb : bumpNamespace r n with
      | error e => rw [hb] at h; cases h
      | ok r1 =>
          rw [hb] at h
          exact le_trans (versionNum_bump_le name hb) (bumpRelated_le name h)

theorem applyOps_le {ops : List Op} : ∀ {r r' : Redis} (name : String),
    applyOps r ops = .ok r' → versionNum r name ≤ versionNum r' name := by
  induction ops with
  | nil =>
      intro r r' name h
      simp [applyOps] at h
      rw [h]
  | cons op ops ih =>
      intro r r' name h
      rw [applyOps] at h
      cases ha : applyOp r op with
      | error e => rw [ha] at h; cases h
      | ok r1 =>
          rw [ha] at h
          exact le_trans (applyOp_le name ha) (ih name h)

/-! ## Lemmas: `select` -/

theorem listOfArr_arrOfList (l : List JVal) : listOfArr (arrOfList l) = l := by
  induction l with
  | nil => rfl
  | cons x xs ih => simp [arrOfList, listOfArr, ih]

theorem apush_arrOfList (l : List JVal) (x : JVal) :
    apush (arrOfList l) x = arrOfList (l ++ [x]) := by
  induction l with
  | nil => rfl
  | cons y ys ih => simp [arrOfList, apush, ih]

theorem foldl_pushVirtual (reg : List (String × JVal)) (vs : List String) :
    ∀ xs : List JVal,
    vs.foldl (pushVirtual reg) (.jobj (.ocons "include" (.jarr (arrOfList xs)) .onil)) =
      .jobj (.ocons "include" (.jarr (arrOfList (xs ++ vs.map fun v =>
        .jarr (.acons ((jlookup reg v).getD .jnull) (.acons (.jstr v) .anil))))) .onil) := by
  induction vs with
  | nil => intro xs; simp
  | cons v vs ih =>
      intro xs
      rw [List.foldl_cons,
        show pushVirtual reg (.jobj (.ocons "include" (.jarr (arrOfList xs)) .onil)) v =
          .jobj (.ocons "include" (.jarr (apush (arrOfList xs)
            (.jarr (.acons ((jlookup reg v).getD .jnull) (.acons (.jstr v) .anil))))) .onil)
          from by simp [pushVirtual, olookup, oset],
        apush_arrOfList, ih]
      simp

/-! ## Lemma: a miss populates the cache and the next identical read hits -/

theorem findAll_miss_then_hit {b : Builder} (eng : Engine) (opts : List (String × JVal))
    {r : Redis} (calls : Nat) {s : String} {w : JVal}
    (hfg : r.failGets = []) (hfs : r.failSets = [])
    (httl : jtruthy b.cacheTTL = true)
    (hns : rlookup r.data ("ns:" ++ b.modelName) = some s) (hsne : s ≠ "")
    (hcc : checkCache r (md5hex (stringify (keyData b "findAll" (.jstr s)))) = .ok (w, r))
    (hw : jtruthy w = false) (opts2 : List (String × JVal)) (calls2 : Nat) :
    findAll b eng opts r calls =
      .ok (rowsToJVal (eng (objAssign (queryPairs b.query) opts)),
        { r with data := (rstore r.data (md5hex (stringify (keyData b "findAll" (.jstr s))))
            (stringify (rowsToJVal (eng (objAssign (queryPairs b.query) opts))))) },
        calls + 1) ∧
    findAll b eng opts2
      { r with data := (rstore r.data (md5hex (stringify (keyData b "findAll" (.jstr s))))
          (stringify (rowsToJVal (eng (objAssign (queryPairs b.query) opts))))) } calls2 =
      .ok (rowsToJVal (eng (objAssign (queryPairs b.query) opts)),
        { r with data := (rstore r.data (md5hex (stringify (keyData b "findAll" (.jstr s))))
            (stringify (rowsToJVal (eng (objAssign (queryPairs b.query) opts))))) },
        calls2) := by
  have hg1 : ("ns:" ++ b.modelName) ∉ r.failGets := by simp [hfg]
  have hks : md5hex (stringify (keyData b "findAll" (.jstr s))) ∉ r.failSets := by simp [hfs]
  refine ⟨findAll_miss httl hg1 hns hsne hcc hw hks, ?_⟩
  set k := md5hex (stringify (keyData b "findAll" (.jstr s))) with hk
  set rows := eng (objAssign (queryPairs b.query) opts) with hrows
  set r1 : Redis := { r with data := (rstore r.data k (stringify (rowsToJVal rows))) }
    with hr1
  have hns1 : rlookup r1.data ("ns:" ++ b.modelName) = some s := by
    rw [hr1]
    show rlookup (rstore r.data k (stringify (rowsToJVal rows))) ("ns:" ++ b.modelName)
      = some s
    rw [rlookup_rstore_other _ _ _ _ (Ne.symm (md5hex_ne_ns _ _)), hns]
  have hcs1 : rlookup r1.data k = some (stringify (rowsToJVal rows)) := by
    rw [hr1]
    exact rlookup_rstore_self _ _ _
  have hg1' : ("ns:" ++ b.modelName) ∉ r1.failGets := by
    rw [hr1]
    simp [hfg]
  have hkg1 : k ∉ r1.failGets := by
    rw [hr1]
    simp [hfg]
  exact findAll_hit httl hg1' hns1 hsne hkg1 hcs1 (stringify_rows_ne rows)
    (jparse_stringify_rows rows) (jtruthy_rows rows)

/-! ## Concrete fixtures for counterexamples and witnesses -/

/-- A `User` builder with no virtual attributes and `cache(60)`. -/
def userB : Builder := cacheFor (newBuilder "User" []) 60

/-- A query engine resolving with one fixed row. -/
def rowsEng : Engine := fun _ => [[("id", .pnum 1), ("name", .pstr "Alice")]]

/-- The empty, fully functional store. -/
def emptyR : Redis := ⟨[], [], []⟩

/-- A functional store where `User`'s namespace version is already `"1"`. -/
def seededR : Redis := ⟨[("ns:User", "1")], [], []⟩

/-! ## The claims -/

/-- C1, counterexample to the claim as stated: on a store that has never seen
the model's namespace key, the first `findAll` derives its key from the
number `1` while the second derives it from the string `"1"`
(`JSON.stringify` distinguishes them), so the second execution is a miss and
invokes the query engine again (the engine-invocation count reaches 2). -/
theorem C1_counterexample :
    (findAll userB rowsEng [] emptyR 0).map (fun x => x.2.2) = .ok 1 ∧
    ((findAll userB rowsEng [] emptyR 0).bind fun x =>
      (findAll userB rowsEng [] x.2.1 x.2.2).map fun y => y.2.2) = .ok 2 :=
  ⟨rfl, rfl⟩

/-- C1 (amended): for every query with caching enabled, every functioning
store state in which the model's namespace version is already present (a
never-before-seen namespace breaks the claim: the init-on-read returns the
number `1` but later reads return the string `"1"`, which `JSON.stringify`
serializes differently, changing the MD5 key) and whose entry at the derived
key, if any, is `JSON.parse`-able, executing `findAll` and then immediately
re-executing it returns the same value, leaves the store unchanged, and the
second execution never invokes the query engine (its invocation count stays
at its starting value). -/
theorem C1_theorem (b : Builder) (eng : Engine) (opts : List (String × JVal)) (r : Redis)
    (s : String) (calls : Nat)
    (hfg : r.failGets = []) (hfs : r.failSets = [])
    (httl : jtruthy b.cacheTTL = true)
    (hns : rlookup r.data ("ns:" ++ b.modelName) = some s) (hsne : s ≠ "")
    (hwf : (rlookup r.data (md5hex (stringify (keyData b "findAll" (.jstr s))))).all
      (fun cs => cs == "" || (jparse cs).isSome) = true) :
    ∃ v r1 n1, findAll b eng opts r calls = .ok (v, r1, n1) ∧
      findAll b eng opts r1 n1 = .ok (v, r1, n1) := by
  have hg1 : ("ns:" ++ b.modelName) ∉ r.failGets := by simp [hfg]
  have hkg : md5hex (stringify (keyData b "findAll" (.jstr s))) ∉ r.failGets := by
    simp [hfg]
  cases hc : rlookup r.data (md5hex (stringify (keyData b "findAll" (.jstr s)))) with
  | none =>
      have h2 := findAll_miss_then_hit eng opts calls hfg hfs httl hns hsne
        (checkCache_absent hkg hc) rfl opts (calls + 1)
      exact ⟨_, _, _, h2.1, h2.2⟩
  | some cs =>
      rw [hc] at hwf
      simp only [Option.all_some] at hwf
      by_cases hce : cs = ""
      · subst hce
        have h2 := findAll_miss_then_hit eng opts calls hfg hfs httl hns hsne
          (checkCache_empty hkg hc) rfl opts (calls + 1)
        exact ⟨_, _, _, h2.1, h2.2⟩
      · have hps : ∃ v, jparse cs = some v := by
          simp only [Bool.or_eq_true, beq_iff_eq, hce, false_or,
            Option.isSome_iff_exists] at hwf
          exact hwf
        obtain ⟨v, hp⟩ := hps
        by_cases hv : jtruthy v = true
        · exact ⟨v, r, calls, findAll_hit httl hg1 hns hsne hkg hc hce hp hv,
            findAll_hit httl hg1 hns hsne hkg hc hce hp hv⟩
        · have hvf : jtruthy v = false := by revert hv; cases jtruthy v <;> simp
          have h2 := findAll_miss_then_hit eng opts calls hfg hfs httl hns hsne
            (checkCache_found hkg hc hce hp) hvf opts (calls + 1)
          exact ⟨_, _, _, h2.1, h2.2⟩

/-- C1, witness: the amended claim applied to a concrete builder, engine and
seeded store. -/
theorem C1_witness :
    ∃ v r1 n1, findAll userB rowsEng [] seededR 0 = .ok (v, r1, n1) ∧
      findAll userB rowsEng [] r1 n1 = .ok (v, r1, n1) :=
  C1_theorem userB rowsEng [] seededR "1" 0 rfl rfl rfl rfl (by decide) (by decide)

/-- C2, counterexample to the claim as stated: on a store that has never seen
the name, the first `_getNamespaceVersion` call returns the JavaScript
number `1` while the second returns the string `"1"`, which are different
values. -/
theorem C2_counterexample :
    ((getNamespaceVersion "User" emptyR).bind fun x =>
      (getNamespaceVersion "User" x.2).map fun y => (x.1, y.1)) =
        .ok (.jnum 1, .jstr "1") ∧ JVal.jnum 1 ≠ JVal.jstr "1" :=
  ⟨rfl, by decide⟩

/-- C2 (amended): for every functioning store and resource name never before
seen, `_getNamespaceVersion` initializes the stored version to `"1"`,
persists it, and returns the number `1`; every later call (no intervening
bump) returns the string `"1"` and leaves the store unchanged, so from the
second call on the returned value is always the same — but the first call
returns the number `1` while the later ones return its string form. -/
theorem C2_theorem (r : Redis) (name : String)
    (hfg : ("ns:" ++ name) ∉ r.failGets) (hfs : ("ns:" ++ name) ∉ r.failSets)
    (habs : rlookup r.data ("ns:" ++ name) = none) :
    getNamespaceVersion name r =
      .ok (.jnum 1, { r with data := rstore r.data ("ns:" ++ name) "1" }) ∧
    rlookup (rstore r.data ("ns:" ++ name) "1") ("ns:" ++ name) = some "1" ∧
    getNamespaceVersion name { r with data := rstore r.data ("ns:" ++ name) "1" } =
      .ok (.jstr "1", { r with data := rstore r.data ("ns:" ++ name) "1" }) := by
  refine ⟨getNamespaceVersion_absent hfg hfs habs, rlookup_rstore_self _ _ _, ?_⟩
  exact getNamespaceVersion_present hfg (rlookup_rstore_self _ _ _) (by decide)

/-- C2, witness: the amended claim applied to the empty store and `"User"`. -/
theorem C2_witness :
    getNamespaceVersion "User" emptyR = .ok (.jnum 1, seededR) ∧
    rlookup seededR.data "ns:User" = some "1" ∧
    getNamespaceVersion "User" seededR = .ok (.jstr "1", seededR) :=
  C2_theorem emptyR "User" (by decide) (by decide) rfl

/-- C3, counterexample to the claim as stated: `paginate(page = 0,
pageSize = 10)` raises nothing at all — `paginate` performs no validation
(the embedded function is total, mirroring the source, which has no check
and no throw) — and instead sets `limit = 10` and `offset = -10`. -/
theorem C3_counterexample :
    paginate (newBuilder "User" []) 0 10 =
      { newBuilder "User" [] with
          query := { (newBuilder "User" []).query with
                      qlimit := .jnum 10
                      qoffset := .jnum (-10) } } := rfl

/-- C3 (amended): `paginate` never validates and never raises: for every
builder state and all integer arguments, including `page < 1` and
`pageSize < 1`, it returns normally having set `limit = pageSize` and
`offset = (page - 1) * pageSize` (negative when `page < 1`). -/
theorem C3_theorem (b : Builder) (page pageSize : Int) :
    paginate b page pageSize =
      { b with
          query := { b.query with
                      qlimit := .jnum pageSize
                      qoffset := .jnum ((page - 1) * pageSize) } } := rfl

/-- C4, counterexample to the claim as stated: with the engine succeeding and
the store rejecting the cache write (`setEx`) at the derived key, `findAll`
rejects with the store error instead of returning the freshly computed
result — `_setCache` has no try/catch, so the write error propagates. -/
theorem C4_counterexample :
    findAll userB rowsEng []
      ⟨[("ns:User", "1")], [], [md5hex (stringify (keyData userB "findAll" (.jstr "1")))]⟩
      0 =
      .error (.storeSet (md5hex (stringify (keyData userB "findAll" (.jstr "1"))))) := rfl

/-- C4 (amended): for every cached read where the engine result is computed
but the subsequent cache write to the store fails, the write error is not
swallowed: `findAll` rejects with the store-write error and the freshly
computed result is not returned to the caller. -/
theorem C4_theorem (b : Builder) (eng : Engine) (opts : List (String × JVal)) (r : Redis)
    (calls : Nat) (s : String) (w : JVal)
    (httl : jtruthy b.cacheTTL = true)
    (hg : ("ns:" ++ b.modelName) ∉ r.failGets)
    (hns : rlookup r.data ("ns:" ++ b.modelName) = some s) (hsne : s ≠ "")
    (hcc : checkCache r (md5hex (stringify (keyData b "findAll" (.jstr s)))) = .ok (w, r))
    (hw : jtruthy w = false)
    (hks : md5hex (stringify (keyData b "findAll" (.jstr s))) ∈ r.failSets) :
    findAll b eng opts r calls =
      .error (.storeSet (md5hex (stringify (keyData b "findAll" (.jstr s))))) :=
  findAll_set_fails httl hg hns hsne hcc hw hks

/-- C4, witness: the amended claim applied to a concrete store that rejects
the write at the derived key. -/
theorem C4_witness :
    findAll userB rowsEng []
      ⟨[("ns:User", "1")], [], [md5hex (stringify (keyData userB "findAll" (.jstr "1")))]⟩
      0 =
      .error (.storeSet (md5hex (stringify (keyData userB "findAll" (.jstr "1"))))) :=
  C4_theorem userB rowsEng []
    ⟨[("ns:User", "1")], [], [md5hex (stringify (keyData userB "findAll" (.jstr "1")))]⟩
    0 "1" .jnull rfl (by decide) rfl (by decide) rfl rfl (List.mem_singleton.mpr rfl)

/-- C5, counterexample to the claim as stated: when the store rejects the
cache lookup (`get`) at the derived key, the read is not treated as a miss:
`_checkCache` has no try/catch, so `findAll` rejects with the store-read
error and the query engine is never invoked. -/
theorem C5_counterexample :
    findAll userB rowsEng []
      ⟨[("ns:User", "1")], [md5hex (stringify (keyData userB "findAll" (.jstr "1")))], []⟩
      0 =
      .error (.storeGet (md5hex (stringify (keyData userB "findAll" (.jstr "1"))))) := rfl

/-- C5 (amended): for every cached read where the cache lookup against the
store fails, the failure is not treated as a cache miss: `findAll` rejects
with the store-read error (before any query-engine invocation) instead of
executing the engine and returning its result. -/
theorem C5_theorem (b : Builder) (eng : Engine) (opts : List (String × JVal)) (r : Redis)
    (calls : Nat) (s : String)
    (httl : jtruthy b.cacheTTL = true)
    (hg : ("ns:" ++ b.modelName) ∉ r.failGets)
    (hns : rlookup r.data ("ns:" ++ b.modelName) = some s) (hsne : s ≠ "")
    (hkg : md5hex (stringify (keyData b "findAll" (.jstr s))) ∈ r.failGets) :
    findAll b eng opts r calls =
      .error (.storeGet (md5hex (stringify (keyData b "findAll" (.jstr s))))) :=
  findAll_get_fails httl hg hns hsne hkg

/-- C5, witness: the amended claim applied to a concrete store that rejects
the read at the derived key. -/
theorem C5_witness :
    findAll userB rowsEng []
      ⟨[("ns:User", "1")], [md5hex (stringify (keyData userB "findAll" (.jstr "1")))], []⟩
      0 =
      .error (.storeGet (md5hex (stringify (keyData userB "findAll" (.jstr "1"))))) :=
  C5_theorem userB rowsEng []
    ⟨[("ns:User", "1")], [md5hex (stringify (keyData userB "findAll" (.jstr "1")))], []⟩
    0 "1" rfl (by decide) rfl (by decide) (List.mem_singleton.mpr rfl)

/-- Two call sequences whose final filter maps agree but whose key insertion
orders differ. -/
def c6b1 : Builder :=
  filter (filter (cacheFor (newBuilder "User" []) 60) [("a", .jnum 1)]) [("b", .jnum 2)]

def c6b2 : Builder :=
  filter (filter (cacheFor (newBuilder "User" []) 60) [("b", .jnum 2)]) [("a", .jnum 1)]

/-- C6, counterexample to the claim as stated: two builders whose final
states carry the same filter map (the `where` association lists are
permutations of each other), identical projections, relations, sort order
and pagination, and the same stored namespace version, nevertheless derive
different cache keys, because `JSON.stringify` serializes object keys in
insertion order and `_getCacheKey` hashes that serialization. -/
theorem C6_counterexample :
    c6b1.query.qwhere = [("a", .jnum 1), ("b", .jnum 2)] ∧
    c6b2.query.qwhere = [("b", .jnum 2), ("a", .jnum 1)] ∧
    c6b1.query.qwhere.Perm c6b2.query.qwhere ∧
    c6b1.query.qattributes = c6b2.query.qattributes ∧
    c6b1.query.qinclude = c6b2.query.qinclude ∧
    c6b1.query.qorder = c6b2.query.qorder ∧
    c6b1.query.qlimit = c6b2.query.qlimit ∧
    c6b1.query.qoffset = c6b2.query.qoffset ∧
    getCacheKey c6b1 seededR "findAll" =
      .ok (md5hex (stringify (keyData c6b1 "findAll" (.jstr "1"))), seededR) ∧
    getCacheKey c6b2 seededR "findAll" =
      .ok (md5hex (stringify (keyData c6b2 "findAll" (.jstr "1"))), seededR) ∧
    md5hex (stringify (keyData c6b1 "findAll" (.jstr "1"))) ≠
      md5hex (stringify (keyData c6b2 "findAll" (.jstr "1"))) :=
  ⟨rfl, rfl, List.Perm.swap _ _ _, rfl, rfl, rfl, rfl, rfl, rfl, rfl, by decide⟩

/-- C6 (amended): key derivation depends only on the final builder state —
model name and final query object, *including* the insertion order of filter
keys — and not on how that state was reached: any two builders with the same
model name and the same final query state derive identical keys against the
same store.  (Equality of the filter *map* alone is not enough, see
`C6_counterexample`.) -/
theorem C6_theorem (b1 b2 : Builder) (r : Redis) (method : String)
    (hm : b1.modelName = b2.modelName) (hq : b1.query = b2.query) :
    getCacheKey b1 r method = getCacheKey b2 r method := by
  have hk : ∀ ver, keyData b1 method ver = keyData b2 method ver := by
    intro ver
    rw [keyData, keyData, hm, hq]
  rw [getCacheKey, getCacheKey, hm]
  congr 1
  funext p
  rw [hk]

/-- Two different call sequences reaching the same final state: overwriting
`a` twice versus setting it once. -/
def c6w1 : Builder :=
  filter (filter (cacheFor (newBuilder "User" []) 60) [("a", .jnum 1)]) [("a", .jnum 2)]

def c6w2 : Builder := filter (cacheFor (newBuilder "User" []) 60) [("a", .jnum 2)]

/-- C6, witness: the amended claim applied to two concretely different call
sequences with identical final state. -/
theorem C6_witness :
    getCacheKey c6w1 seededR "findAll" = getCacheKey c6w2 seededR "findAll" :=
  C6_theorem c6w1 c6w2 seededR "findAll" rfl rfl

/-- C7: each `invalidate` call on a resource whose stored version is absent
or parses as an integer (absent counting as `0`, as every state this library
produces satisfies) increases that resource's version by exactly 1, provided
the resource is not also listed among its own dependents; and over any
sequence of `_getNamespaceVersion` reads and `invalidate` calls that
completes without store failure, no resource's version ever decreases. -/
theorem C7_theorem :
    (∀ (r r' : Redis) (name : String) (rels : List String),
      name ∉ rels → nsParses r name = true → invalidate r name rels = .ok r' →
      versionNum r' name = versionNum r name + 1) ∧
    (∀ (r r' : Redis) (ops : List Op) (name : String),
      applyOps r ops = .ok r' → versionNum r name ≤ versionNum r' name) :=
  ⟨fun _ _ _ _ h1 h2 h3 => invalidate_exact h1 h2 h3,
   fun _ _ _ name h => applyOps_le name h⟩

/-- C7, witness: both parts applied to concrete stores — an `invalidate` that
bumps `"3"` to `"4"`, and a read-then-invalidate sequence from the empty
store under which `User`'s version only grows. -/
theorem C7_witness :
    versionNum ⟨[("ns:User", "4")], [], []⟩ "User" =
      versionNum ⟨[("ns:User", "3")], [], []⟩ "User" + 1 ∧
    versionNum emptyR "User" ≤ versionNum ⟨[("ns:User", "2")], [], []⟩ "User" :=
  ⟨C7_theorem.1 ⟨[("ns:User", "3")], [], []⟩ ⟨[("ns:User", "4")], [], []⟩ "User" []
      (by decide) (by decide) rfl,
   C7_theorem.2 emptyR ⟨[("ns:User", "2")], [], []⟩
      [Op.getv "User", Op.inval "User" []] "User" rfl⟩

/-- C8: in every `select` call, a requested name absent from the model's
virtual-attribute registry is treated as an ordinary projected column — it
appears among the projection's ordinary columns no matter how many virtual
fields are requested alongside — and whenever at least one virtual field is
requested, the resulting attribute object lists all of the call's ordinary
fields explicitly in its `include` array alongside the `[expression, name]`
virtual pairs, dropping none of them. -/
theorem C8_theorem (b : Builder) (attrs : List String) :
    (∀ a ∈ attrs, (jlookup b.virtuals a).any jtruthy = false →
      JVal.jstr a ∈ projectedCols (select b attrs).query.qattributes) ∧
    ((attrs.filter fun x => (jlookup b.virtuals x).any jtruthy) ≠ [] →
      (select b attrs).query.qattributes =
        .jobj (.ocons "include" (.jarr (arrOfList
          ((attrs.filter fun x => !(jlookup b.virtuals x).any jtruthy).map JVal.jstr ++
           (attrs.filter fun x => (jlookup b.virtuals x).any jtruthy).map
             fun v => JVal.jarr (.acons ((jlookup b.virtuals v).getD .jnull)
               (.acons (.jstr v) .anil))))) .onil)) := by
  have hpart2 : (attrs.filter fun x => (jlookup b.virtuals x).any jtruthy) ≠ [] →
      (select b attrs).query.qattributes =
        .jobj (.ocons "include" (.jarr (arrOfList
          ((attrs.filter fun x => !(jlookup b.virtuals x).any jtruthy).map JVal.jstr ++
           (attrs.filter fun x => (jlookup b.virtuals x).any jtruthy).map
             fun v => JVal.jarr (.acons ((jlookup b.virtuals v).getD .jnull)
               (.acons (.jstr v) .anil))))) .onil) := by
    intro hvne
    have hvE : (attrs.filter fun x => (jlookup b.virtuals x).any jtruthy).isEmpty = false := by
      cases hE : (attrs.filter fun x => (jlookup b.virtuals x).any jtruthy).isEmpty
      · rfl
      · exact absurd (List.isEmpty_iff.mp hE) hvne
    by_cases hrE : (attrs.filter fun x => !(jlookup b.virtuals x).any jtruthy).isEmpty = true
    · have hrnil := List.isEmpty_iff.mp hrE
      have hfold := foldl_pushVirtual b.virtuals
        (attrs.filter fun x => (jlookup b.virtuals x).any jtruthy) []
      simp only [arrOfList, List.nil_append] at hfold
      simp only [select, hvE, hrE, Bool.false_eq_true, if_false, if_true, reduceIte,
        hrnil, List.map_nil, List.nil_append]
      exact hfold
    · have hrE2 : (attrs.filter fun x => !(jlookup b.virtuals x).any jtruthy).isEmpty
          = false := by
        revert hrE
        cases (attrs.filter fun x => !(jlookup b.virtuals x).any jtruthy).isEmpty <;> simp
      have hfold := foldl_pushVirtual b.virtuals
        (attrs.filter fun x => (jlookup b.virtuals x).any jtruthy)
        ((attrs.filter fun x => !(jlookup b.virtuals x).any jtruthy).map JVal.jstr)
      simp only [select, hvE, hrE2, Bool.false_eq_true, if_false, reduceIte, hfold]
  refine ⟨?_, hpart2⟩
  intro a ha hav
  have haR : a ∈ attrs.filter fun x => !(jlookup b.virtuals x).any jtruthy :=
    List.mem_filter.mpr ⟨ha, by simp [hav]⟩
  have hrE2 : (attrs.filter fun x => !(jlookup b.virtuals x).any jtruthy).isEmpty = false := by
    cases hE : (attrs.filter fun x => !(jlookup b.virtuals x).any jtruthy).isEmpty
    · rfl
    · rw [List.isEmpty_iff.mp hE] at haR
      cases haR
  cases hE : (attrs.filter fun x => (jlookup b.virtuals x).any jtruthy).isEmpty with
  | true =>
      simp only [select, hE, if_true, hrE2, Bool.false_eq_true, if_false, reduceIte]
      rw [show projectedCols (.jarr (arrOfList
          ((attrs.filter fun x => !(jlookup b.virtuals x).any jtruthy).map JVal.jstr))) =
          (attrs.filter fun x => !(jlookup b.virtuals x).any jtruthy).map JVal.jstr from by
            rw [projectedCols, listOfArr_arrOfList]]
      exact List.mem_map.mpr ⟨a, haR, rfl⟩
  | false =>
      have hvne : (attrs.filter fun x => (jlookup b.virtuals x).any jtruthy) ≠ [] := by
        intro hc
        rw [hc] at hE
        cases hE
      rw [hpart2 hvne, projectedCols]
      simp only [olookup, if_pos, reduceIte, listOfArr_arrOfList]
      exact List.mem_append.mpr (Or.inl (List.mem_map.mpr ⟨a, haR, rfl⟩))

/-- C8, witness: the `User` model's registry with a mixed request: `id` and
`name` are not in the registry and appear as ordinary columns next to the
virtual pair for `totalViews`. -/
theorem C8_witness :
    (JVal.jstr "id" ∈ projectedCols (select (newBuilder "User"
      [("totalViews", .jobj (.ocons "val" (.jstr "(SELECT 1)") .onil))])
      ["id", "name", "totalViews"]).query.qattributes) ∧
    (select (newBuilder "User"
      [("totalViews", .jobj (.ocons "val" (.jstr "(SELECT 1)") .onil))])
      ["id", "name", "totalViews"]).query.qattributes =
        .jobj (.ocons "include" (.jarr (arrOfList
          [JVal.jstr "id", JVal.jstr "name",
           .jarr (.acons (.jobj (.ocons "val" (.jstr "(SELECT 1)") .onil))
             (.acons (.jstr "totalViews") .anil))])) .onil) := by
  have h := C8_theorem (newBuilder "User"
    [("totalViews", .jobj (.ocons "val" (.jstr "(SELECT 1)") .onil))])
    ["id", "name", "totalViews"]
  exact ⟨h.1 "id" (by decide) (by decide), h.2 (by decide)⟩

/-- C9 (implicit): `cache(0)` leaves the builder with the falsy TTL `0`, so
`findAll` and `findOne` do no cache read and no cache write — the store is
untouched and the engine result is returned directly — behaving identically
to a builder on which `cache` was never called (TTL still `null`). -/
theorem C9_theorem (b : Builder) (eng : Engine) (engOne : EngineOne)
    (opts : List (String × JVal)) (r : Redis) (calls : Nat) :
    cacheFor b 0 = { b with cacheTTL := .jnum 0 } ∧
    findAll (cacheFor b 0) eng opts r calls =
      .ok (rowsToJVal (eng (objAssign (queryPairs b.query) opts)), r, calls + 1) ∧
    findAll (cacheFor b 0) eng opts r calls =
      findAll { b with cacheTTL := .jnull } eng opts r calls ∧
    findOne (cacheFor b 0) engOne opts r calls =
      findOne { b with cacheTTL := .jnull } engOne opts r calls := by
  refine ⟨rfl, ?_, ?_, ?_⟩
  · exact findAll_nocache _ _ _ _ _ rfl
  · rw [findAll_nocache (cacheFor b 0) eng opts r calls rfl,
      findAll_nocache { b with cacheTTL := .jnull } eng opts r calls rfl]
    rfl
  · rw [findOne_nocache (cacheFor b 0) engOne opts r calls rfl,
      findOne_nocache { b with cacheTTL := .jnull } engOne opts r calls rfl]
    rfl

/-- C10 (implicit): the derived cache key is computed only from the model
name, namespace version, method and the builder's accumulated query state —
`_getCacheKey` never sees the per-call `options` — so executing the same
builder state first with options `o1` (a miss that populates the cache) and
then with any different options `o2` hits the same key and returns the
result computed under `o1`, without invoking the engine. -/
theorem C10_theorem (b : Builder) (eng : Engine) (o1 o2 : List (String × JVal)) (r : Redis)
    (calls calls2 : Nat) (s : String)
    (hfg : r.failGets = []) (hfs : r.failSets = [])
    (httl : jtruthy b.cacheTTL = true)
    (hns : rlookup r.data ("ns:" ++ b.modelName) = some s) (hsne : s ≠ "")
    (hmiss : rlookup r.data (md5hex (stringify (keyData b "findAll" (.jstr s)))) = none) :
    findAll b eng o1 r calls =
      .ok (rowsToJVal (eng (objAssign (queryPairs b.query) o1)),
        { r with data := (rstore r.data (md5hex (stringify (keyData b "findAll" (.jstr s))))
            (stringify (rowsToJVal (eng (objAssign (queryPairs b.query) o1))))) },
        calls + 1) ∧
    findAll b eng o2
      { r with data := (rstore r.data (md5hex (stringify (keyData b "findAll" (.jstr s))))
          (stringify (rowsToJVal (eng (objAssign (queryPairs b.query) o1))))) } calls2 =
      .ok (rowsToJVal (eng (objAssign (queryPairs b.query) o1)),
        { r with data := (rstore r.data (md5hex (stringify (keyData b "findAll" (.jstr s))))
            (stringify (rowsToJVal (eng (objAssign (queryPairs b.query) o1))))) },
        calls2) := by
  have hkg : md5hex (stringify (keyData b "findAll" (.jstr s))) ∉ r.failGets := by
    simp [hfg]
  exact findAll_miss_then_hit eng o1 calls hfg hfs httl hns hsne
    (checkCache_absent hkg hmiss) rfl o2 calls2

/-- An engine whose result depends on the merged options. -/
def optEng : Engine := fun m =>
  match jlookup m "opt" with
  | some (.jnum k) => [[("got", .pnum k)]]
  | _ => [[("got", .pnum 0)]]

/-- C10, witness: with an options-sensitive engine, the second call (options
`opt = 2`) returns the row computed under the first call's `opt = 1`, and
its engine-invocation count stays at its starting value. -/
theorem C10_witness :
    ∃ r1, findAll userB optEng [("opt", .jnum 1)] seededR 0 =
        .ok (rowsToJVal [[("got", .pnum 1)]], r1, 1) ∧
      findAll userB optEng [("opt", .jnum 2)] r1 0 =
        .ok (rowsToJVal [[("got", .pnum 1)]], r1, 0) := by
  have h := C10_theorem userB optEng [("opt", .jnum 1)] [("opt", .jnum 2)] seededR 0 0 "1"
    rfl rfl rfl rfl (by decide) rfl
  exact ⟨_, h.1, h.2⟩

end SQB